import Mathlib

/-!
The forwarding DNS cache of go-dns (`dns.go`).

A shallow embedding of `query`, `sendPacket` and `sendToClient` of `dns.go`,
and of the part of `main` that dispatches a decoded datagram.

Modelling decisions.

* The two package-level maps `store.data` and `messages` form the `State`.
  A Go map read at an absent key yields `ok = false` (for `store.data`) or the
  nil slice (for `messages`, where the code never tests for presence), so the
  maps are total functions into `Option Message` and `List Packet`.
* The library `golang.org/x/net/dns/dnsmessage` is outside the repository.
  Its `Message` is a record with the library's fields; its `Pack` is a parameter.
* `query` runs in a goroutine per datagram and starts `sendToClient` in a
  goroutine. The model runs one handler at a time, to completion, and records
  what it issues as a list of `Effect`s; `wire` then runs `sendToClient`.
* Errors returned by `conn.WriteToUDP` are only logged by the source; an
  attempted write is recorded as a datagram.
* Interleavings of handlers are not modelled. For the locking discipline,
  `queryOps` and `sendPacketOps` list the lock operations and map accesses of a
  handler in program order.
-/

namespace GoDns

/-- Go `[]byte`. -/
abbrev Bytes := List Nat

/-- Go `string`. -/
abbrev GoString := String

/-- Go `net.UDPAddr`. -/
structure UDPAddr where
  IP : List Nat
  Port : Nat
  Zone : GoString
deriving DecidableEq

/-- The `dnsmessage.Name`: `Data` stands for the `Length`-byte prefix of the array. -/
structure Name where
  Data : GoString
deriving DecidableEq

/-- The method `Name.String()`: the name exactly as it was decoded. -/
def Name.String (n : Name) : GoString := n.Data

/-- The `dnsmessage.Question` (`Typ` is its field `Type`). -/
structure Question where
  Name : Name
  Typ : Nat
  Class : Nat
deriving DecidableEq

/-- The `dnsmessage.Resource`: resource header fields and an uninterpreted body. -/
structure Resource where
  Name : Name
  Typ : Nat
  Class : Nat
  TTL : Nat
  Body : Bytes
deriving DecidableEq

/-- The `dnsmessage.Header`. -/
structure Header where
  ID : Nat
  Response : Bool
  OpCode : Nat
  Authoritative : Bool
  Truncated : Bool
  RecursionDesired : Bool
  RecursionAvailable : Bool
  RCode : Nat
deriving DecidableEq

/-- The `dnsmessage.Message`: the embedded header and the four sections. -/
structure Message extends Header where
  Questions : List Question
  Answers : List Resource
  Authorities : List Resource
  Additionals : List Resource
deriving DecidableEq

/-- The type `Store` of `dns.go` (the embedded `sync.RWMutex` is not modelled). -/
structure Store where
  data : GoString → Option Message

/-- The type `Packet` of `dns.go`. -/
structure Packet where
  addr : UDPAddr
  message : Message
deriving DecidableEq

/-- Constant `Port` of `dns.go`. -/
def Port : Nat := 53

/-- Constant `Length` of `dns.go`. -/
def Length : Nat := 512

/-- The package-level variables `store` and `messages`. -/
structure State where
  store : Store
  messages : GoString → List Packet

/-- The state after `store.data = make(...)` with `messages = make(...)`. -/
def State.init : State :=
  { store := { data := fun _ => none }, messages := fun _ => [] }

/-- The literal `net.UDPAddr{IP: net.IP{114, 114, 114, 114}, Port: 53}` of `query`. -/
def resolver : UDPAddr :=
  { IP := [114, 114, 114, 114], Port := 53, Zone := "" }

/-- What a handler issues: a `go sendToClient(...)` or a `conn.WriteToUDP(...)`. -/
inductive Effect where
  | sendToClient (p : Packet)
  | writeToUDP (packed : Bytes) (addr : UDPAddr)
deriving DecidableEq

/-- A datagram handed to `conn.WriteToUDP`. -/
structure Datagram where
  payload : Bytes
  addr : UDPAddr
deriving DecidableEq

/-- Function `sendToClient`: pack the message and write it to `p.addr`;
nothing is written when `Pack` fails. -/
def sendToClient (pack : Message → Option Bytes) (p : Packet) : List Datagram :=
  match pack p.message with
  | none => []
  | some packed => [{ payload := packed, addr := p.addr }]

/-- The datagrams written as a consequence of a list of effects. -/
def wire (pack : Message → Option Bytes) : List Effect → List Datagram
  | [] => []
  | Effect.sendToClient p :: es => sendToClient pack p ++ wire pack es
  | Effect.writeToUDP packed addr :: es => { payload := packed, addr := addr } :: wire pack es

/-- The deletion of `sendPacket` (lines 142-146): the slice without its last
element when `i` is the last index, else `append(l[:i], l[i+1:]...)`. -/
def removeRecord (l : List Packet) (i : Nat) : List Packet :=
  if l.length - 1 = i then l.take (l.length - 1) else l.take i ++ l.drop (i + 1)

/-- The `for i, packet := range messages[domain]` loop of `sendPacket`, from
index `i` with `rest` still to visit: at the first record whose ID equals the
answer's, the new slice and the `go sendToClient` it issues; `none` when the
loop ends without a match. -/
def sendPacketLoop (p : Packet) (whole : List Packet) : Nat → List Packet → Option (List Packet × Effect)
  | _, [] => none
  | i, packet :: rest =>
    if p.message.ID = packet.message.ID then
      some (removeRecord whole i, Effect.sendToClient { addr := packet.addr, message := p.message })
    else sendPacketLoop p whole (i + 1) rest

/-- Function `sendPacket`: write the answer into the cache, then relay it to
the first pending record of `messages[domain]` with the same ID, removing it. -/
def sendPacket (s : State) (domain : GoString) (p : Packet) : State × List Effect :=
  let s1 : State := { s with store := { data := Function.update s.store.data domain (some p.message) } }
  match sendPacketLoop p (s1.messages domain) 0 (s1.messages domain) with
  | none => (s1, [])
  | some (l, e) => ({ s1 with messages := Function.update s1.messages domain l }, [e])

/-- Function `query`. The result is `none` when `p.message.Questions[0]` is out
of range (a run-time panic in Go). -/
def query (pack : Message → Option Bytes) (s : State) (p : Packet) : Option (State × List Effect) :=
  match p.message.Questions with
  | [] => none
  | q0 :: _ =>
    let domain := q0.Name.String
    if p.message.Response then some (sendPacket s domain p)
    else
      match s.store.data domain with
      | some message =>
        some (s, [Effect.sendToClient { addr := p.addr, message := { message with ID := p.message.ID } }])
      | none =>
        match pack p.message with
        | none => some (s, [])
        | some packed =>
          some ({ s with messages := Function.update s.messages domain (s.messages domain ++ [p]) },
            [Effect.writeToUDP packed resolver])

/-- The body of the receive loop of `main` after a successful `Unpack`
(lines 88-93): a message without questions is skipped, any other is handed to
`query`. -/
def handle (pack : Message → Option Bytes) (s : State) (p : Packet) : Option (State × List Effect) :=
  if p.message.Questions.length = 0 then some (s, []) else query pack s p

/-- The value of `domain` in `query` (line 98), `none` when the message has no question. -/
def domainOf (m : Message) : Option GoString :=
  match m.Questions with
  | [] => none
  | q0 :: _ => some q0.Name.String

/-- A decoded datagram together with the time at which it arrives. -/
structure Arrival where
  time : Nat
  packet : Packet
deriving DecidableEq

/-- Handling of a datagram that arrives at time `now`. The source reads no
clock and `Store` keeps no expiry time, so the arrival time is not an input of
`query`: it is carried here only to phrase statements about time. -/
def handleAt (pack : Message → Option Bytes) (s : State) (_now : Nat) (p : Packet) :
    Option (State × List Effect) :=
  handle pack s p

/-- The handling of a trace of arrivals, one after the other, with all effects in order. -/
def runTrace (pack : Message → Option Bytes) : State → List Arrival → Option (State × List Effect)
  | s, [] => some (s, [])
  | s, a :: rest =>
    match handleAt pack s a.time a.packet with
    | none => none
    | some (s1, e1) =>
      match runTrace pack s1 rest with
      | none => none
      | some (s2, e2) => some (s2, e1 ++ e2)

/-- Spec-side notion, not computed by the source: the minimum TTL among the
answer records of a message, `none` when there is no record. -/
def minTTL (m : Message) : Option Nat :=
  match m.Answers with
  | [] => none
  | r :: rs => some (rs.foldl (fun acc x => min acc x.TTL) r.TTL)

/-- Spec-side notion, not computed by the source: a name in canonical form,
ASCII letters in lower case and one trailing dot removed. -/
def normalizeName (n : GoString) : List Char :=
  let cs := n.data.map Char.toLower
  if cs.getLast? = some '.' then cs.dropLast else cs

/-- One iteration of the receive loop of `main` (lines 81-93) for a datagram
read into `buf` from `remoteAddr`, with the library's `Unpack` as a parameter:
a buffer that does not decode and a message without questions are skipped with
`continue`; any other message is handed to `query`. -/
def mainLoopBody (unpack : Bytes → Option Message) (pack : Message → Option Bytes) (s : State)
    (buf : Bytes) (remoteAddr : UDPAddr) : Option (State × List Effect) :=
  match unpack buf with
  | none => some (s, [])
  | some m =>
    if m.Questions.length = 0 then some (s, [])
    else query pack s { addr := remoteAddr, message := m }

/-- Spec-side notion for the comparison with `sendPacket`: the list without its
first record of transaction ID `id`, all other records in their order. -/
def deleteFirstWithID (id : Nat) : List Packet → List Packet
  | [] => []
  | x :: xs => if id = x.message.ID then xs else x :: deleteFirstWithID id xs

/-- A step of a handler that matters for synchronisation: an operation on the
mutex embedded in `store`, an access to `store.data`, an operation on the mutex
`rw`, or an access to `messages`. -/
inductive Op where
  | storeLock
  | storeUnlock
  | storeRead
  | storeWrite
  | rwLock
  | rwUnlock
  | messagesRead
  | messagesWrite
deriving DecidableEq

/-- The synchronisation steps of `sendPacket`, in program order: the write of
`store.data[domain]` (line 136), `rw.Lock()` (138), the read of
`messages[domain]` by `range` (139), on a match the read and the write of
`messages[domain]` (142-146), and `rw.Unlock()` (155). -/
def sendPacketOps (s : State) (domain : GoString) (p : Packet) : List Op :=
  [Op.storeWrite, Op.rwLock, Op.messagesRead] ++
    (match sendPacketLoop p (s.messages domain) 0 (s.messages domain) with
      | none => []
      | some _ => [Op.messagesRead, Op.messagesWrite]) ++
    [Op.rwUnlock]

/-- The synchronisation steps of `query`, in program order: for an answer those
of `sendPacket`; for a question the read of `store.data[domain]` (line 107)
and, on a miss that can be encoded, `rw.Lock()`, the read and the write of
`messages[domain]`, and `rw.Unlock()` (125-127). -/
def queryOps (pack : Message → Option Bytes) (s : State) (p : Packet) : List Op :=
  match p.message.Questions with
  | [] => []
  | q0 :: _ =>
    if p.message.Response then sendPacketOps s q0.Name.String p
    else
      Op.storeRead ::
        (match s.store.data q0.Name.String with
          | some _ => []
          | none =>
            match pack p.message with
            | none => []
            | some _ => [Op.rwLock, Op.messagesRead, Op.messagesWrite, Op.rwUnlock])

/-- Whether every access to `store.data` in a sequence of steps happens while
the mutex of `store` is held; `held` tells whether it is held at the start. -/
def storeGuarded : Bool → List Op → Bool
  | _, [] => true
  | _, Op.storeLock :: ops => storeGuarded true ops
  | _, Op.storeUnlock :: ops => storeGuarded false ops
  | held, Op.storeRead :: ops => held && storeGuarded held ops
  | held, Op.storeWrite :: ops => held && storeGuarded held ops
  | held, _ :: ops => storeGuarded held ops

/-- Whether every access to `messages` in a sequence of steps happens while
`rw` is held; `held` tells whether it is held at the start. -/
def messagesGuarded : Bool → List Op → Bool
  | _, [] => true
  | _, Op.rwLock :: ops => messagesGuarded true ops
  | _, Op.rwUnlock :: ops => messagesGuarded false ops
  | held, Op.messagesRead :: ops => held && messagesGuarded held ops
  | held, Op.messagesWrite :: ops => held && messagesGuarded held ops
  | held, _ :: ops => messagesGuarded held ops

/-! ## Concrete instances -/

/-- An encoder for the concrete instances: the ID, then the types of the questions. -/
def packIdTypes (m : Message) : Option Bytes :=
  some (m.ID :: m.Questions.map (fun q => q.Typ))

/-- A client address. -/
def clientA : UDPAddr := { IP := [10, 0, 0, 1], Port := 40001, Zone := "" }

/-- Another client address. -/
def clientB : UDPAddr := { IP := [10, 0, 0, 2], Port := 40002, Zone := "" }

/-- The name `a.com.` as `Unpack` yields it. -/
def nameA : Name := { Data := "a.com." }

/-- The name `b.com.` as `Unpack` yields it. -/
def nameB : Name := { Data := "b.com." }

/-- A client question: response flag clear, one question of class IN. -/
def mkQuestion (id : Nat) (n : Name) (t : Nat) : Message :=
  { ID := id, Response := false, OpCode := 0, Authoritative := false, Truncated := false,
    RecursionDesired := true, RecursionAvailable := false, RCode := 0,
    Questions := [{ Name := n, Typ := t, Class := 1 }],
    Answers := [], Authorities := [], Additionals := [] }

/-- An upstream answer: response flag set, the question echoed, one record with the given TTL. -/
def mkAnswer (id : Nat) (n : Name) (t : Nat) (ttl : Nat) : Message :=
  { ID := id, Response := true, OpCode := 0, Authoritative := false, Truncated := false,
    RecursionDesired := true, RecursionAvailable := true, RCode := 0,
    Questions := [{ Name := n, Typ := t, Class := 1 }],
    Answers := [{ Name := n, Typ := t, Class := 1, TTL := ttl, Body := [93, 184, 216, 34] }],
    Authorities := [], Additionals := [] }

/-- A state whose cache holds an answer (ID 7, type A, TTL 300) for `a.com.`. -/
def stateCachedA : State :=
  { store := { data := Function.update (fun _ => none) nameA.String (some (mkAnswer 7 nameA 1 300)) },
    messages := fun _ => [] }

/-- A state in which client A waits for `a.com.` with ID 7. -/
def statePendingA : State :=
  { store := { data := fun _ => none },
    messages := Function.update (fun _ => []) nameA.String
      [{ addr := clientA, message := mkQuestion 7 nameA 1 }] }

/-- The name `A.com.`: `a.com.` in another letter case. -/
def nameAUpper : Name := { Data := "A.com." }

/-- Client A asks for `a.com.` (type A, ID 7) at time 0 and the resolver
answers at time 1 with one record of TTL 300. -/
def traceResolveA : List Arrival :=
  [{ time := 0, packet := { addr := clientA, message := mkQuestion 7 nameA 1 } },
   { time := 1, packet := { addr := resolver, message := mkAnswer 7 nameA 1 300 } }]

/-- After `traceResolveA`, client B asks for `a.com.` (type A, ID 9) at time 301. -/
def traceLateQuestion : List Arrival :=
  traceResolveA ++ [{ time := 301, packet := { addr := clientB, message := mkQuestion 9 nameA 1 } }]

/-- After `traceResolveA`, client B asks for `a.com.` with type AAAA (28) and ID 9. -/
def traceOtherType : List Arrival :=
  traceResolveA ++ [{ time := 2, packet := { addr := clientB, message := mkQuestion 9 nameA 28 } }]

/-- Client A resolves `A.com.` (ID 7), then client B asks for `a.com.` (ID 9). -/
def traceOtherCase : List Arrival :=
  [{ time := 0, packet := { addr := clientA, message := mkQuestion 7 nameAUpper 1 } },
   { time := 1, packet := { addr := resolver, message := mkAnswer 7 nameAUpper 1 300 } },
   { time := 2, packet := { addr := clientB, message := mkQuestion 9 nameA 1 } }]

/-- After `traceOtherCase`, the resolver answers the question of client B. -/
def traceOtherCaseAnswered : List Arrival :=
  traceOtherCase ++ [{ time := 3, packet := { addr := resolver, message := mkAnswer 9 nameA 1 300 } }]

/-- An encoder that rejects every message: `Pack` returns an error. -/
def packFail (_m : Message) : Option Bytes := none

/-- A decoded message with an empty question section. -/
def mkNoQuestion (id : Nat) : Message :=
  { ID := id, Response := false, OpCode := 0, Authoritative := false, Truncated := false,
    RecursionDesired := true, RecursionAvailable := false, RCode := 0,
    Questions := [], Answers := [], Authorities := [], Additionals := [] }

/-- A state in which client A and then client B wait for `a.com.`, both with ID 7. -/
def statePendingAB : State :=
  { store := { data := fun _ => none },
    messages := Function.update (fun _ => []) nameA.String
      [{ addr := clientA, message := mkQuestion 7 nameA 1 },
       { addr := clientB, message := mkQuestion 7 nameA 1 }] }

/-- A third client address. -/
def clientC : UDPAddr := { IP := [10, 0, 0, 3], Port := 40003, Zone := "" }

/-- A state in which client A waits for `a.com.` with ID 7 twice, its question
sent again, and client B, registered after A, waits for it with the same ID. -/
def statePendingAAB : State :=
  { store := { data := fun _ => none },
    messages := Function.update (fun _ => []) nameA.String
      [{ addr := clientA, message := mkQuestion 7 nameA 1 },
       { addr := clientA, message := mkQuestion 7 nameA 1 },
       { addr := clientB, message := mkQuestion 7 nameA 1 }] }

/-- A state in which client C, then client A, then client B wait for `a.com.`,
all three with ID 7. -/
def statePendingCAB : State :=
  { store := { data := fun _ => none },
    messages := Function.update (fun _ => []) nameA.String
      [{ addr := clientC, message := mkQuestion 7 nameA 1 },
       { addr := clientA, message := mkQuestion 7 nameA 1 },
       { addr := clientB, message := mkQuestion 7 nameA 1 }] }

/-- Two upstream answers with ID 7 for `a.com.`, one after the other. -/
def traceTwoAnswers : List Arrival :=
  [{ time := 0, packet := { addr := resolver, message := mkAnswer 7 nameA 1 300 } },
   { time := 1, packet := { addr := resolver, message := mkAnswer 7 nameA 1 60 } }]

/-- A decoder for the concrete instances: every buffer decodes to the question
(ID 7, `a.com.`, type A). -/
def unpackQuestionA (_buf : Bytes) : Option Message := some (mkQuestion 7 nameA 1)

/-! ## Shared lemmas -/

theorem removeRecord_split (pre post : List Packet) (r : Packet) :
    removeRecord (pre ++ r :: post) pre.length = pre ++ post := by
  unfold removeRecord
  by_cases h : (pre ++ r :: post).length - 1 = pre.length
  · rw [if_pos h]
    have hlen : post.length = 0 := by
      simp only [List.length_append, List.length_cons] at h
      omega
    have hpost : post = [] := List.eq_nil_of_length_eq_zero hlen
    subst hpost
    rw [h]
    simp
  · rw [if_neg h]
    simp

theorem sendPacketLoop_none (p : Packet) (whole : List Packet) (l : List Packet) :
    ∀ (i : Nat), (∀ x ∈ l, p.message.ID ≠ x.message.ID) → sendPacketLoop p whole i l = none := by
  induction l with
  | nil => intro i _; rfl
  | cons a t ih =>
    intro i h
    have ha : p.message.ID ≠ a.message.ID := h a (List.mem_cons_self a t)
    simp only [sendPacketLoop, if_neg ha]
    exact ih (i + 1) (fun x hx => h x (List.mem_cons_of_mem a hx))

theorem sendPacketLoop_first (p : Packet) (whole : List Packet) (r : Packet) (post : List Packet)
    (hr : p.message.ID = r.message.ID) (pre : List Packet) :
    ∀ (i : Nat), (∀ x ∈ pre, p.message.ID ≠ x.message.ID) →
      sendPacketLoop p whole i (pre ++ r :: post)
        = some (removeRecord whole (i + pre.length),
            Effect.sendToClient { addr := r.addr, message := p.message }) := by
  induction pre with
  | nil =>
    intro i _
    simp [sendPacketLoop, hr]
  | cons a t ih =>
    intro i h
    have ha : p.message.ID ≠ a.message.ID := h a (List.mem_cons_self a t)
    have ht := ih (i + 1) (fun x hx => h x (List.mem_cons_of_mem a hx))
    have hidx : i + 1 + t.length = i + (t.length + 1) := by omega
    rw [hidx] at ht
    rw [List.cons_append]
    simp only [sendPacketLoop, if_neg ha, List.length_cons]
    exact ht

theorem exists_first_record (id : Nat) (l : List Packet) :
    (∃ r ∈ l, id = r.message.ID) →
      ∃ pre r post, l = pre ++ r :: post ∧ id = r.message.ID ∧ ∀ x ∈ pre, id ≠ x.message.ID := by
  induction l with
  | nil => rintro ⟨r, hr, _⟩; cases hr
  | cons a t ih =>
    rintro ⟨r, hr, hid⟩
    by_cases ha : id = a.message.ID
    · exact ⟨[], a, t, rfl, ha, fun x hx => by cases hx⟩
    · have hrt : r ∈ t := by
        rcases List.mem_cons.mp hr with h | h
        · exact absurd (h ▸ hid) ha
        · exact h
      obtain ⟨pre, r', post, hl, hid', hpre⟩ := ih ⟨r, hrt, hid⟩
      refine ⟨a :: pre, r', post, by rw [hl]; rfl, hid', ?_⟩
      intro x hx
      rcases List.mem_cons.mp hx with h | h
      · exact h ▸ ha
      · exact hpre x h

theorem sendPacket_match (s : State) (domain : GoString) (p r : Packet) (pre post : List Packet)
    (hl : s.messages domain = pre ++ r :: post) (hr : p.message.ID = r.message.ID)
    (hpre : ∀ x ∈ pre, p.message.ID ≠ x.message.ID) :
    sendPacket s domain p
      = ({ store := { data := Function.update s.store.data domain (some p.message) },
           messages := Function.update s.messages domain (pre ++ post) },
         [Effect.sendToClient { addr := r.addr, message := p.message }]) := by
  have h := sendPacketLoop_first p (pre ++ r :: post) r post hr pre 0 hpre
  rw [Nat.zero_add, removeRecord_split] at h
  simp only [sendPacket, hl, h]

theorem sendPacket_nomatch (s : State) (domain : GoString) (p : Packet)
    (hno : ∀ x ∈ s.messages domain, p.message.ID ≠ x.message.ID) :
    sendPacket s domain p
      = ({ store := { data := Function.update s.store.data domain (some p.message) },
           messages := s.messages }, []) := by
  have h := sendPacketLoop_none p (s.messages domain) (s.messages domain) 0 hno
  simp only [sendPacket, h]

theorem handle_eq_query (pack : Message → Option Bytes) (s : State) (p : Packet)
    (q : Question) (qs : List Question) (hq : p.message.Questions = q :: qs) :
    handle pack s p = query pack s p := by
  simp [handle, hq]

theorem query_response (pack : Message → Option Bytes) (s : State) (p : Packet)
    (q : Question) (qs : List Question) (hq : p.message.Questions = q :: qs)
    (hr : p.message.Response = true) :
    query pack s p = some (sendPacket s q.Name.String p) := by
  simp [query, hq, hr]

theorem query_hit (pack : Message → Option Bytes) (s : State) (p : Packet)
    (q : Question) (qs : List Question) (cached : Message)
    (hq : p.message.Questions = q :: qs) (hr : p.message.Response = false)
    (hc : s.store.data q.Name.String = some cached) :
    query pack s p
      = some (s, [Effect.sendToClient
          { addr := p.addr, message := { cached with ID := p.message.ID } }]) := by
  simp [query, hq, hr, hc]

theorem query_miss (pack : Message → Option Bytes) (s : State) (p : Packet)
    (q : Question) (qs : List Question) (packed : Bytes)
    (hq : p.message.Questions = q :: qs) (hr : p.message.Response = false)
    (hc : s.store.data q.Name.String = none) (hp : pack p.message = some packed) :
    query pack s p
      = some ({ s with messages :=
                  Function.update s.messages q.Name.String (s.messages q.Name.String ++ [p]) },
          [Effect.writeToUDP packed resolver]) := by
  simp [query, hq, hr, hc, hp]

/-! ## Client questions answered from the cache -/

/-- C1: for every state and every client question (response flag false, at
least one question) whose cache key, the name of its first question, is present
in the cache, `query` issues exactly one effect: the cached message with its
transaction ID replaced by the ID of the incoming question, every other field
kept, handed to `sendToClient` for the address of the sender. When `Pack` of
that reply succeeds, the datagram `sendToClient` writes is its encoding,
addressed to the sender. -/
theorem query_cache_hit_reply (pack : Message → Option Bytes) (s : State) (p : Packet)
    (q : Question) (qs : List Question) (cached : Message)
    (hq : p.message.Questions = q :: qs) (hr : p.message.Response = false)
    (hc : s.store.data q.Name.String = some cached) :
    ∃ s' reply,
      query pack s p = some (s', [Effect.sendToClient { addr := p.addr, message := reply }]) ∧
      reply = { cached with ID := p.message.ID } ∧
      reply.ID = p.message.ID ∧
      (∀ packed, pack reply = some packed →
        wire pack [Effect.sendToClient { addr := p.addr, message := reply }]
          = [{ payload := packed, addr := p.addr }]) := by
  refine ⟨s, { cached with ID := p.message.ID }, query_hit pack s p q qs cached hq hr hc, rfl, rfl, ?_⟩
  intro packed hp
  simp [wire, sendToClient, hp]

/-- Instance of C1: a question with ID 9 from client B for `a.com.`, cached with ID 7. -/
theorem query_cache_hit_reply_witness :
    ∃ s' reply,
      query packIdTypes stateCachedA { addr := clientB, message := mkQuestion 9 nameA 1 }
        = some (s', [Effect.sendToClient { addr := clientB, message := reply }]) ∧
      reply = mkAnswer 9 nameA 1 300 ∧
      reply.ID = 9 ∧
      (∀ packed, packIdTypes reply = some packed →
        wire packIdTypes [Effect.sendToClient { addr := clientB, message := reply }]
          = [{ payload := packed, addr := clientB }]) :=
  query_cache_hit_reply packIdTypes stateCachedA { addr := clientB, message := mkQuestion 9 nameA 1 }
    { Name := nameA, Typ := 1, Class := 1 } [] (mkAnswer 7 nameA 1 300) rfl rfl (by decide)

/-! ## Transaction IDs of replies -/

/-- C2: for every state (so for every reachable one) and every handled
datagram, each message handed to `sendToClient` either comes from the cache-hit
path, and then goes to the sender of the incoming question with that question's
transaction ID, or comes from the relay path, and then goes to the address of a
record of the pending list with the transaction ID of the question stored in
that record. -/
theorem client_reply_transaction_id (pack : Message → Option Bytes) (s s' : State) (p c : Packet)
    (effs : List Effect) (h : handle pack s p = some (s', effs))
    (hc : Effect.sendToClient c ∈ effs) :
    (p.message.Response = false ∧ c.addr = p.addr ∧ c.message.ID = p.message.ID) ∨
    (p.message.Response = true ∧ ∃ q qs, p.message.Questions = q :: qs ∧
      ∃ r ∈ s.messages q.Name.String, c.addr = r.addr ∧ c.message.ID = r.message.ID) := by
  cases hq : p.message.Questions with
  | nil =>
    simp [handle, hq] at h
    obtain ⟨-, rfl⟩ := h
    cases hc
  | cons q qs =>
    rw [handle_eq_query pack s p q qs hq] at h
    cases hr : p.message.Response with
    | true =>
      right
      refine ⟨rfl, q, qs, rfl, ?_⟩
      rw [query_response pack s p q qs hq hr] at h
      by_cases hm : ∃ r ∈ s.messages q.Name.String, p.message.ID = r.message.ID
      · obtain ⟨pre, r, post, hl, hid, hpre⟩ := exists_first_record _ _ hm
        rw [sendPacket_match s _ p r pre post hl hid hpre] at h
        simp only [Option.some.injEq, Prod.mk.injEq] at h
        obtain ⟨-, rfl⟩ := h
        simp only [List.mem_singleton, Effect.sendToClient.injEq] at hc
        refine ⟨r, ?_, ?_, ?_⟩
        · rw [hl]; simp
        · rw [hc]
        · rw [hc]; exact hid
      · have hno : ∀ x ∈ s.messages q.Name.String, p.message.ID ≠ x.message.ID :=
          fun x hx hx' => hm ⟨x, hx, hx'⟩
        rw [sendPacket_nomatch s _ p hno] at h
        simp only [Option.some.injEq, Prod.mk.injEq] at h
        obtain ⟨-, rfl⟩ := h
        cases hc
    | false =>
      left
      refine ⟨rfl, ?_⟩
      cases hs : s.store.data q.Name.String with
      | some cached =>
        rw [query_hit pack s p q qs cached hq hr hs] at h
        simp only [Option.some.injEq, Prod.mk.injEq] at h
        obtain ⟨-, rfl⟩ := h
        simp only [List.mem_singleton, Effect.sendToClient.injEq] at hc
        rw [hc]
        exact ⟨rfl, rfl⟩
      | none =>
        cases hp : pack p.message with
        | none =>
          simp [query, hq, hr, hs, hp] at h
          obtain ⟨-, rfl⟩ := h
          cases hc
        | some packed =>
          rw [query_miss pack s p q qs packed hq hr hs hp] at h
          simp only [Option.some.injEq, Prod.mk.injEq] at h
          obtain ⟨-, rfl⟩ := h
          simp at hc

/-- Instance of C2 on the relay path: the answer with ID 7 for `a.com.` goes to
client A, whose stored question has ID 7. -/
theorem client_reply_transaction_id_witness :
    (mkAnswer 7 nameA 1 300).Response = true ∧ ∃ q qs, (mkAnswer 7 nameA 1 300).Questions = q :: qs ∧
      ∃ r ∈ statePendingA.messages q.Name.String, clientA = r.addr ∧ 7 = r.message.ID := by
  have h := client_reply_transaction_id packIdTypes statePendingA
    (sendPacket statePendingA nameA.String { addr := resolver, message := mkAnswer 7 nameA 1 300 }).1
    { addr := resolver, message := mkAnswer 7 nameA 1 300 }
    { addr := clientA, message := mkAnswer 7 nameA 1 300 }
    [Effect.sendToClient { addr := clientA, message := mkAnswer 7 nameA 1 300 }]
    rfl (by decide)
  rcases h with h | h
  · exact absurd h.1 (by decide)
  · exact h

/-! ## Upstream answers -/

/-- C3: for every state and every message with the response flag set for which
a matching pending record exists (a record of the pending list of the message's
first question name with the message's transaction ID), handling the message
removes the first such record from the pending table, every other record kept
in place, and issues exactly one effect: the answer itself, unmodified, handed
to `sendToClient` for the address stored in the removed record; its transaction
ID is that of the record's original question. -/
theorem matched_answer_relayed (pack : Message → Option Bytes) (s : State) (p : Packet)
    (q : Question) (qs : List Question)
    (hq : p.message.Questions = q :: qs) (hr : p.message.Response = true)
    (hm : ∃ r ∈ s.messages q.Name.String, p.message.ID = r.message.ID) :
    ∃ pre r post s',
      s.messages q.Name.String = pre ++ r :: post ∧
      (∀ x ∈ pre, x.message.ID ≠ p.message.ID) ∧
      r.message.ID = p.message.ID ∧
      handle pack s p = some (s', [Effect.sendToClient { addr := r.addr, message := p.message }]) ∧
      s'.messages = Function.update s.messages q.Name.String (pre ++ post) := by
  obtain ⟨pre, r, post, hl, hid, hpre⟩ := exists_first_record _ _ hm
  refine ⟨pre, r, post,
    { store := { data := Function.update s.store.data q.Name.String (some p.message) },
      messages := Function.update s.messages q.Name.String (pre ++ post) },
    hl, fun x hx hx' => hpre x hx hx'.symm, hid.symm, ?_, ?_⟩
  · rw [handle_eq_query pack s p q qs hq, query_response pack s p q qs hq hr,
      sendPacket_match s _ p r pre post hl hid hpre]
  · rfl

/-- Instance of C3: client A waits for `a.com.` with ID 7 and the answer with ID 7 arrives. -/
theorem matched_answer_relayed_witness :
    ∃ pre r post s',
      statePendingA.messages nameA.String = pre ++ r :: post ∧
      (∀ x ∈ pre, x.message.ID ≠ 7) ∧
      r.message.ID = 7 ∧
      handle packIdTypes statePendingA { addr := resolver, message := mkAnswer 7 nameA 1 300 }
        = some (s', [Effect.sendToClient { addr := r.addr, message := mkAnswer 7 nameA 1 300 }]) ∧
      s'.messages = Function.update statePendingA.messages nameA.String (pre ++ post) :=
  matched_answer_relayed packIdTypes statePendingA { addr := resolver, message := mkAnswer 7 nameA 1 300 }
    { Name := nameA, Typ := 1, Class := 1 } [] rfl rfl
    ⟨{ addr := clientA, message := mkQuestion 7 nameA 1 }, by decide, rfl⟩

/-- C4, as stated, fails: client A waits for `a.com.` with ID 7, so the pending
table holds a record with the ID of the answer, but the answer with ID 7 whose
question section names `b.com.` is not matched: nothing is issued and the
pending table is unchanged. -/
theorem pending_lookup_other_name_counterexample :
    (mkAnswer 7 nameB 1 300).Response = true ∧
    (∃ d, ∃ r ∈ statePendingA.messages d, r.message.ID = (mkAnswer 7 nameB 1 300).ID) ∧
    ∃ s', handle packIdTypes statePendingA { addr := resolver, message := mkAnswer 7 nameB 1 300 }
        = some (s', []) ∧
      s'.messages = statePendingA.messages ∧
      s'.messages nameA.String = [{ addr := clientA, message := mkQuestion 7 nameA 1 }] := by
  refine ⟨rfl, ⟨nameA.String, { addr := clientA, message := mkQuestion 7 nameA 1 }, by decide, rfl⟩, ?_⟩
  refine ⟨⟨⟨Function.update statePendingA.store.data nameB.String (some (mkAnswer 7 nameB 1 300))⟩,
    statePendingA.messages⟩, ?_, rfl, by decide⟩
  rw [handle_eq_query _ _ _ { Name := nameB, Typ := 1, Class := 1 } [] rfl,
    query_response _ _ _ { Name := nameB, Typ := 1, Class := 1 } [] rfl rfl,
    sendPacket_nomatch _ _ _ (by decide)]

/-- C4, amended: the pending lookup is by the name of the answer's first
question and then by transaction ID. For every state and every upstream answer,
the pending lists of all other names are left as they are, whatever IDs they
hold; if the list of the answer's name holds a record with the answer's ID, the
first such record is removed and the answer is relayed to its address; if it
holds none, nothing is issued and the pending table is unchanged. -/
theorem pending_lookup_by_name_then_id (pack : Message → Option Bytes) (s : State) (p : Packet)
    (q : Question) (qs : List Question)
    (hq : p.message.Questions = q :: qs) (hr : p.message.Response = true) :
    ∃ s' effs, handle pack s p = some (s', effs) ∧
      (∀ d, d ≠ q.Name.String → s'.messages d = s.messages d) ∧
      ((∃ r ∈ s.messages q.Name.String, r.message.ID = p.message.ID) →
        ∃ pre r post, s.messages q.Name.String = pre ++ r :: post ∧
          (∀ x ∈ pre, x.message.ID ≠ p.message.ID) ∧ r.message.ID = p.message.ID ∧
          s'.messages q.Name.String = pre ++ post ∧
          effs = [Effect.sendToClient { addr := r.addr, message := p.message }]) ∧
      ((∀ r ∈ s.messages q.Name.String, r.message.ID ≠ p.message.ID) →
        effs = [] ∧ s'.messages = s.messages) := by
  rw [handle_eq_query pack s p q qs hq, query_response pack s p q qs hq hr]
  by_cases hm : ∃ r ∈ s.messages q.Name.String, p.message.ID = r.message.ID
  · obtain ⟨pre, r, post, hl, hid, hpre⟩ := exists_first_record _ _ hm
    rw [sendPacket_match s _ p r pre post hl hid hpre]
    refine ⟨_, _, rfl, ?_, ?_, ?_⟩
    · intro d hd
      exact Function.update_noteq hd _ _
    · intro _
      exact ⟨pre, r, post, hl, fun x hx hx' => hpre x hx hx'.symm, hid.symm,
        Function.update_same _ _ _, rfl⟩
    · intro hno
      exact absurd hid.symm (hno r (by rw [hl]; simp))
  · have hno : ∀ x ∈ s.messages q.Name.String, p.message.ID ≠ x.message.ID :=
      fun x hx hx' => hm ⟨x, hx, hx'⟩
    rw [sendPacket_nomatch s _ p hno]
    refine ⟨_, _, rfl, fun _ _ => rfl, ?_, fun _ => ⟨rfl, rfl⟩⟩
    rintro ⟨r, hr', hid⟩
    exact absurd hid.symm (hno r hr')

/-- Instance of amended C4: the answer with ID 7 for `b.com.` while client A
waits for `a.com.` with ID 7. -/
theorem pending_lookup_by_name_then_id_witness :
    ∃ s' effs, handle packIdTypes statePendingA { addr := resolver, message := mkAnswer 7 nameB 1 300 }
        = some (s', effs) ∧
      (∀ d, d ≠ nameB.String → s'.messages d = statePendingA.messages d) ∧
      ((∃ r ∈ statePendingA.messages nameB.String, r.message.ID = 7) →
        ∃ pre r post, statePendingA.messages nameB.String = pre ++ r :: post ∧
          (∀ x ∈ pre, x.message.ID ≠ 7) ∧ r.message.ID = 7 ∧
          s'.messages nameB.String = pre ++ post ∧
          effs = [Effect.sendToClient { addr := r.addr, message := mkAnswer 7 nameB 1 300 }]) ∧
      ((∀ r ∈ statePendingA.messages nameB.String, r.message.ID ≠ 7) →
        effs = [] ∧ s'.messages = statePendingA.messages) :=
  pending_lookup_by_name_then_id packIdTypes statePendingA
    { addr := resolver, message := mkAnswer 7 nameB 1 300 }
    { Name := nameB, Typ := 1, Class := 1 } [] rfl rfl

/-- C5, as stated, fails: in the initial state no pending record matches the
answer with ID 7 for `a.com.`; handling it issues nothing and leaves the
pending table unchanged, but the cache, empty before, now holds the answer. -/
theorem unsolicited_answer_cached_counterexample :
    (mkAnswer 7 nameA 1 300).Response = true ∧
    (∀ d, ∀ r ∈ State.init.messages d, r.message.ID ≠ (mkAnswer 7 nameA 1 300).ID) ∧
    ∃ s', handle packIdTypes State.init { addr := resolver, message := mkAnswer 7 nameA 1 300 }
        = some (s', []) ∧
      State.init.store.data nameA.String = none ∧
      s'.store.data nameA.String = some (mkAnswer 7 nameA 1 300) ∧
      s'.store.data ≠ State.init.store.data := by
  refine ⟨rfl, fun d r hr => absurd hr (List.not_mem_nil r), ?_⟩
  refine ⟨⟨⟨Function.update State.init.store.data nameA.String (some (mkAnswer 7 nameA 1 300))⟩,
    State.init.messages⟩, ?_, rfl, by decide, ?_⟩
  · rw [handle_eq_query _ _ _ { Name := nameA, Typ := 1, Class := 1 } [] rfl,
      query_response _ _ _ { Name := nameA, Typ := 1, Class := 1 } [] rfl rfl,
      sendPacket_nomatch _ _ _ (fun x hx => absurd hx (List.not_mem_nil x))]
  · intro h
    have h' := congrFun h nameA.String
    revert h'
    decide

/-- C5, amended: for every state and every message with the response flag set
and a first question for which no pending record matches, handling the message
issues nothing, so no datagram is written, and leaves the pending table
unchanged; the cache is overwritten at the name of the first question with the
message and is unchanged at every other key. -/
theorem unsolicited_answer_only_cached (pack : Message → Option Bytes) (s : State) (p : Packet)
    (q : Question) (qs : List Question)
    (hq : p.message.Questions = q :: qs) (hr : p.message.Response = true)
    (hno : ∀ r ∈ s.messages q.Name.String, r.message.ID ≠ p.message.ID) :
    ∃ s', handle pack s p = some (s', []) ∧
      wire pack [] = [] ∧
      s'.messages = s.messages ∧
      s'.store.data q.Name.String = some p.message ∧
      (∀ k, k ≠ q.Name.String → s'.store.data k = s.store.data k) := by
  rw [handle_eq_query pack s p q qs hq, query_response pack s p q qs hq hr,
    sendPacket_nomatch s _ p (fun x hx hx' => hno x hx hx'.symm)]
  exact ⟨_, rfl, rfl, rfl, Function.update_same _ _ _, fun k hk => Function.update_noteq hk _ _⟩

/-- Instance of amended C5: the answer with ID 7 for `a.com.` in the initial state. -/
theorem unsolicited_answer_only_cached_witness :
    ∃ s', handle packIdTypes State.init { addr := resolver, message := mkAnswer 7 nameA 1 300 }
        = some (s', []) ∧
      wire packIdTypes [] = [] ∧
      s'.messages = State.init.messages ∧
      s'.store.data nameA.String = some (mkAnswer 7 nameA 1 300) ∧
      (∀ k, k ≠ nameA.String → s'.store.data k = State.init.store.data k) :=
  unsolicited_answer_only_cached packIdTypes State.init
    { addr := resolver, message := mkAnswer 7 nameA 1 300 }
    { Name := nameA, Typ := 1, Class := 1 } [] rfl rfl (fun r hr => absurd hr (List.not_mem_nil r))

/-! ## Cache miss and cache hit: pending table and upstream traffic -/

/-- C6: for every state and every client question (response flag false) whose
cache key is absent from the cache and whose encoding succeeds, `query` appends
exactly one record, the incoming packet with the sender's address and the
question as received, to the pending list of the question's name, leaves every
other pending list and the cache as they are, and issues exactly one effect:
the write of the encoding of the unmodified question to the fixed resolver
address 114.114.114.114 port 53. Nothing is handed to `sendToClient`. -/
theorem query_cache_miss_forwards (pack : Message → Option Bytes) (s : State) (p : Packet)
    (q : Question) (qs : List Question) (packed : Bytes)
    (hq : p.message.Questions = q :: qs) (hr : p.message.Response = false)
    (hc : s.store.data q.Name.String = none) (hp : pack p.message = some packed) :
    ∃ s' effs, query pack s p = some (s', effs) ∧
      s'.messages q.Name.String = s.messages q.Name.String ++ [p] ∧
      (∀ d, d ≠ q.Name.String → s'.messages d = s.messages d) ∧
      s'.store.data = s.store.data ∧
      effs = [Effect.writeToUDP packed { IP := [114, 114, 114, 114], Port := 53, Zone := "" }] ∧
      wire pack effs = [{ payload := packed, addr := resolver }] ∧
      (∀ c, Effect.sendToClient c ∉ effs) := by
  refine ⟨_, _, query_miss pack s p q qs packed hq hr hc hp, Function.update_same _ _ _,
    fun d hd => Function.update_noteq hd _ _, rfl, rfl, rfl, ?_⟩
  intro c hcmem
  simp at hcmem

/-- Instance of C6: client A asks for `a.com.` with ID 7 in the initial state. -/
theorem query_cache_miss_forwards_witness :
    ∃ s' effs, query packIdTypes State.init { addr := clientA, message := mkQuestion 7 nameA 1 }
        = some (s', effs) ∧
      s'.messages nameA.String
        = State.init.messages nameA.String ++ [{ addr := clientA, message := mkQuestion 7 nameA 1 }] ∧
      (∀ d, d ≠ nameA.String → s'.messages d = State.init.messages d) ∧
      s'.store.data = State.init.store.data ∧
      effs = [Effect.writeToUDP [7, 1] { IP := [114, 114, 114, 114], Port := 53, Zone := "" }] ∧
      wire packIdTypes effs = [{ payload := [7, 1], addr := resolver }] ∧
      (∀ c, Effect.sendToClient c ∉ effs) :=
  query_cache_miss_forwards packIdTypes State.init { addr := clientA, message := mkQuestion 7 nameA 1 }
    { Name := nameA, Typ := 1, Class := 1 } [] [7, 1] rfl rfl rfl rfl

/-- C7: for every state and every client question whose cache key is present in
the cache, `query` leaves the pending table unchanged and issues no write
toward the upstream resolver: the only effect is the reply handed to
`sendToClient`, and every datagram written for it is addressed to the sender of
the question. -/
theorem query_cache_hit_terminal (pack : Message → Option Bytes) (s : State) (p : Packet)
    (q : Question) (qs : List Question) (cached : Message)
    (hq : p.message.Questions = q :: qs) (hr : p.message.Response = false)
    (hc : s.store.data q.Name.String = some cached) :
    ∃ s' effs, query pack s p = some (s', effs) ∧
      s'.messages = s.messages ∧
      (∀ packed addr, Effect.writeToUDP packed addr ∉ effs) ∧
      (∀ d ∈ wire pack effs, d.addr = p.addr) ∧
      (p.addr ≠ resolver → ∀ d ∈ wire pack effs, d.addr ≠ resolver) := by
  have hw : ∀ d ∈ wire pack [Effect.sendToClient
      { addr := p.addr, message := { cached with ID := p.message.ID } }], d.addr = p.addr := by
    intro d hd
    simp only [wire, sendToClient, List.append_nil] at hd
    split at hd
    · cases hd
    · rw [List.mem_singleton] at hd
      rw [hd]
  refine ⟨_, _, query_hit pack s p q qs cached hq hr hc, rfl, ?_, hw, ?_⟩
  · intro packed addr hmem
    simp at hmem
  · intro hne d hd
    rw [hw d hd]
    exact hne

/-- Instance of C7: client B asks for `a.com.`, which is cached. -/
theorem query_cache_hit_terminal_witness :
    ∃ s' effs, query packIdTypes stateCachedA { addr := clientB, message := mkQuestion 9 nameA 1 }
        = some (s', effs) ∧
      s'.messages = stateCachedA.messages ∧
      (∀ packed addr, Effect.writeToUDP packed addr ∉ effs) ∧
      (∀ d ∈ wire packIdTypes effs, d.addr = clientB) ∧
      (clientB ≠ resolver → ∀ d ∈ wire packIdTypes effs, d.addr ≠ resolver) :=
  query_cache_hit_terminal packIdTypes stateCachedA { addr := clientB, message := mkQuestion 9 nameA 1 }
    { Name := nameA, Typ := 1, Class := 1 } [] (mkAnswer 7 nameA 1 300) rfl rfl (by decide)

/-! ## The cache: lifetime and keys -/

theorem handle_total (pack : Message → Option Bytes) (s : State) (p : Packet) :
    ∃ s' effs, handle pack s p = some (s', effs) := by
  cases hq : p.message.Questions with
  | nil => exact ⟨s, [], by simp [handle, hq]⟩
  | cons q qs =>
    rw [handle_eq_query pack s p q qs hq]
    cases hr : p.message.Response with
    | true => exact ⟨_, _, by rw [query_response pack s p q qs hq hr]⟩
    | false =>
      cases hs : s.store.data q.Name.String with
      | some cached => exact ⟨_, _, query_hit pack s p q qs cached hq hr hs⟩
      | none =>
        cases hp : pack p.message with
        | none => exact ⟨s, [], by simp [query, hq, hr, hs, hp]⟩
        | some packed => exact ⟨_, _, query_miss pack s p q qs packed hq hr hs hp⟩

theorem sendPacket_store (s : State) (domain : GoString) (p : Packet) :
    (sendPacket s domain p).1.store.data = Function.update s.store.data domain (some p.message) := by
  unfold sendPacket
  simp only
  split <;> rfl

theorem handle_store_kept (pack : Message → Option Bytes) (s s' : State) (p : Packet)
    (effs : List Effect) (k : GoString) (h : handle pack s p = some (s', effs))
    (hk : p.message.Response = true → domainOf p.message ≠ some k) :
    s'.store.data k = s.store.data k := by
  cases hq : p.message.Questions with
  | nil =>
    simp [handle, hq] at h
    rw [← h.1]
  | cons q qs =>
    rw [handle_eq_query pack s p q qs hq] at h
    cases hr : p.message.Response with
    | true =>
      have hne : k ≠ q.Name.String := by
        intro hkq
        exact hk hr (by simp [domainOf, hq, hkq])
      rw [query_response pack s p q qs hq hr] at h
      simp only [Option.some.injEq] at h
      have hs' : s' = (sendPacket s q.Name.String p).1 := by rw [h]
      rw [hs', sendPacket_store]
      exact Function.update_noteq hne _ _
    | false =>
      cases hs : s.store.data q.Name.String with
      | some cached =>
        rw [query_hit pack s p q qs cached hq hr hs] at h
        simp only [Option.some.injEq, Prod.mk.injEq] at h
        rw [← h.1]
      | none =>
        cases hp : pack p.message with
        | none =>
          simp [query, hq, hr, hs, hp] at h
          rw [← h.1]
        | some packed =>
          rw [query_miss pack s p q qs packed hq hr hs hp] at h
          simp only [Option.some.injEq, Prod.mk.injEq] at h
          rw [← h.1]

theorem runTrace_store_kept (pack : Message → Option Bytes) (k : GoString) (tr : List Arrival) :
    ∀ (s : State),
      (∀ x ∈ tr, x.packet.message.Response = true → domainOf x.packet.message ≠ some k) →
      ∃ s' effs, runTrace pack s tr = some (s', effs) ∧ s'.store.data k = s.store.data k := by
  induction tr with
  | nil => intro s _; exact ⟨s, [], rfl, rfl⟩
  | cons a rest ih =>
    intro s h
    obtain ⟨s1, e1, h1⟩ := handle_total pack s a.packet
    have hk1 := handle_store_kept pack s s1 a.packet e1 k h1 (h a (List.mem_cons_self a rest))
    obtain ⟨s2, e2, h2, hk2⟩ := ih s1 (fun x hx => h x (List.mem_cons_of_mem a hx))
    refine ⟨s2, e1 ++ e2, ?_, by rw [hk2, hk1]⟩
    simp only [runTrace, handleAt, h1, h2]

theorem handle_answer_store (pack : Message → Option Bytes) (s : State) (a : Packet)
    (q : Question) (qs : List Question)
    (hqa : a.message.Questions = q :: qs) (hra : a.message.Response = true) :
    ∃ s1 e1, handle pack s a = some (s1, e1) ∧
      s1.store.data = Function.update s.store.data q.Name.String (some a.message) := by
  rw [handle_eq_query pack s a q qs hqa, query_response pack s a q qs hqa hra]
  exact ⟨_, _, rfl, sendPacket_store s _ a⟩

/-- C8, as stated, fails: the answer for `a.com.` stored at time 1 has minimum
TTL 300, and the question of client B at time 301 is answered from the cache
with that entry; it is neither forwarded upstream nor added to the pending
table. -/
theorem cache_expiry_counterexample :
    minTTL (mkAnswer 7 nameA 1 300) = some 300 ∧ 1 + 300 ≤ 301 ∧
    (runTrace packIdTypes State.init traceResolveA).map (fun r => r.1.store.data nameA.String)
      = some (some (mkAnswer 7 nameA 1 300)) ∧
    (runTrace packIdTypes State.init traceLateQuestion).map Prod.snd
      = some [Effect.writeToUDP [7, 1] resolver,
          Effect.sendToClient { addr := clientA, message := mkAnswer 7 nameA 1 300 },
          Effect.sendToClient { addr := clientB, message := mkAnswer 9 nameA 1 300 }] ∧
    (runTrace packIdTypes State.init traceLateQuestion).map (fun r => r.1.messages nameA.String)
      = some [] := by
  decide

/-- C8, amended: a cache entry never expires. The cache stores no expiry time
and the handlers read no clock: an entry stored at time `t0` from an answer,
whatever its TTLs, is returned, with the asker's transaction ID, to a client
question for that name at every time `t`, after any arrivals in between that
are not answers for the same name (those overwrite the entry); the question is
not forwarded upstream and no pending record is added. -/
theorem cache_entry_never_expires (pack : Message → Option Bytes) (s : State) (t0 t : Nat)
    (a p : Packet) (mid : List Arrival) (q q' : Question) (qs qs' : List Question)
    (hra : a.message.Response = true) (hqa : a.message.Questions = q :: qs)
    (hmid : ∀ x ∈ mid, x.packet.message.Response = true →
      domainOf x.packet.message ≠ some q.Name.String)
    (hrp : p.message.Response = false) (hqp : p.message.Questions = q' :: qs')
    (hname : q'.Name.String = q.Name.String) :
    ∃ s1 e1, runTrace pack s ({ time := t0, packet := a } :: mid) = some (s1, e1) ∧
      handleAt pack s1 t p
        = some (s1, [Effect.sendToClient
            { addr := p.addr, message := { a.message with ID := p.message.ID } }]) := by
  obtain ⟨s0, e0, h0, hst0⟩ := handle_answer_store pack s a q qs hqa hra
  obtain ⟨s1, e1, h1, hst1⟩ := runTrace_store_kept pack q.Name.String mid s0 hmid
  have hc : s1.store.data q'.Name.String = some a.message := by
    rw [hname, hst1, hst0]
    exact Function.update_same _ _ _
  refine ⟨s1, e0 ++ e1, ?_, ?_⟩
  · simp only [runTrace, handleAt, h0, h1]
  · rw [handleAt, handle_eq_query pack s1 p q' qs' hqp]
    exact query_hit pack s1 p q' qs' a.message hqp hrp hc

/-- Instance of amended C8: the answer with TTL 300 stored at time 1, the
question of client B at time 301, the question of client A in between. -/
theorem cache_entry_never_expires_witness :
    ∃ s1 e1, runTrace packIdTypes State.init
        [{ time := 1, packet := { addr := resolver, message := mkAnswer 7 nameA 1 300 } },
         { time := 2, packet := { addr := clientA, message := mkQuestion 8 nameA 1 } }]
        = some (s1, e1) ∧
      handleAt packIdTypes s1 301 { addr := clientB, message := mkQuestion 9 nameA 1 }
        = some (s1, [Effect.sendToClient { addr := clientB, message := mkAnswer 9 nameA 1 300 }]) :=
  cache_entry_never_expires packIdTypes State.init 1 301
    { addr := resolver, message := mkAnswer 7 nameA 1 300 }
    { addr := clientB, message := mkQuestion 9 nameA 1 }
    [{ time := 2, packet := { addr := clientA, message := mkQuestion 8 nameA 1 } }]
    { Name := nameA, Typ := 1, Class := 1 } { Name := nameA, Typ := 1, Class := 1 } [] []
    rfl rfl (by decide) rfl rfl rfl

/-- C9, as stated, fails: after the answer to the question (`a.com.`, type 1)
is cached, the question (`a.com.`, type 28) of client B is answered with that
entry, whose question and record have type 1; it is neither forwarded upstream
nor added to the pending table. -/
theorem cache_key_type_counterexample :
    (1 : Nat) ≠ 28 ∧
    (runTrace packIdTypes State.init traceResolveA).map (fun r => r.1.store.data nameA.String)
      = some (some (mkAnswer 7 nameA 1 300)) ∧
    (runTrace packIdTypes State.init traceOtherType).map Prod.snd
      = some [Effect.writeToUDP [7, 1] resolver,
          Effect.sendToClient { addr := clientA, message := mkAnswer 7 nameA 1 300 },
          Effect.sendToClient { addr := clientB, message := mkAnswer 9 nameA 1 300 }] ∧
    (runTrace packIdTypes State.init traceOtherType).map (fun r => r.1.messages nameA.String)
      = some [] := by
  decide

/-- C9, amended: the cache key is the name of the first question alone; the
query type is not part of it. For every state, once an upstream answer whose
first question is (D, T) has been handled, a client question for (D, T2) with
any type T2 is answered with that entry, transaction ID rewritten; it is not
treated as a miss: the state, and so the pending table, is unchanged and
nothing is written upstream. -/
theorem cache_key_is_name_only (pack : Message → Option Bytes) (s : State) (a p : Packet)
    (q q' : Question) (qs qs' : List Question)
    (hra : a.message.Response = true) (hqa : a.message.Questions = q :: qs)
    (hrp : p.message.Response = false) (hqp : p.message.Questions = q' :: qs')
    (hname : q'.Name = q.Name) :
    ∃ s1 e1, handle pack s a = some (s1, e1) ∧
      query pack s1 p
        = some (s1, [Effect.sendToClient
            { addr := p.addr, message := { a.message with ID := p.message.ID } }]) := by
  obtain ⟨s1, e1, h1, hst1⟩ := handle_answer_store pack s a q qs hqa hra
  refine ⟨s1, e1, h1, query_hit pack s1 p q' qs' a.message hqp hrp ?_⟩
  rw [hname, hst1]
  exact Function.update_same _ _ _

/-- Instance of amended C9: the answer for (`a.com.`, type 1), then a question
for (`a.com.`, type 28). -/
theorem cache_key_is_name_only_witness :
    ∃ s1 e1, handle packIdTypes statePendingA { addr := resolver, message := mkAnswer 7 nameA 1 300 }
        = some (s1, e1) ∧
      query packIdTypes s1 { addr := clientB, message := mkQuestion 9 nameA 28 }
        = some (s1, [Effect.sendToClient { addr := clientB, message := mkAnswer 9 nameA 1 300 }]) :=
  cache_key_is_name_only packIdTypes statePendingA
    { addr := resolver, message := mkAnswer 7 nameA 1 300 }
    { addr := clientB, message := mkQuestion 9 nameA 28 }
    { Name := nameA, Typ := 1, Class := 1 } { Name := nameA, Typ := 28, Class := 1 } [] []
    rfl rfl rfl rfl rfl

/-- C10, as stated, fails: `A.com.` and `a.com.` differ only in letter case,
yet the key under which the answer for `A.com.` is stored differs from the key
looked up for the question for `a.com.`: that question is a miss, forwarded
upstream with a pending record, and its answer creates a second entry. -/
theorem cache_key_case_counterexample :
    nameAUpper.String ≠ nameA.String ∧
    normalizeName nameAUpper.String = normalizeName nameA.String ∧
    domainOf (mkAnswer 7 nameAUpper 1 300) ≠ domainOf (mkQuestion 9 nameA 1) ∧
    (runTrace packIdTypes State.init traceOtherCase).map Prod.snd
      = some [Effect.writeToUDP [7, 1] resolver,
          Effect.sendToClient { addr := clientA, message := mkAnswer 7 nameAUpper 1 300 },
          Effect.writeToUDP [9, 1] resolver] ∧
    (runTrace packIdTypes State.init traceOtherCase).map (fun r => r.1.messages nameA.String)
      = some [{ addr := clientB, message := mkQuestion 9 nameA 1 }] ∧
    (runTrace packIdTypes State.init traceOtherCaseAnswered).map
        (fun r => (r.1.store.data nameAUpper.String, r.1.store.data nameA.String))
      = some (some (mkAnswer 7 nameAUpper 1 300), some (mkAnswer 9 nameA 1 300)) := by
  decide

/-- C10, amended: the cache key is the name of the first question exactly as
decoded, with no normalisation of letter case or trailing dot, computed alike
when an answer is stored and when a question is looked up. After an answer with
first question name N is handled, a client question whose name is N, byte for
byte, is a cache hit answered with it. For a question whose name differs from N
in any way, the lookup gives what it gave before the answer was stored; if that
was nothing and the question can be encoded, it is a miss, forwarded upstream
with a pending record, and the answer to it is stored as a second entry next to
the first. -/
theorem cache_key_exact_spelling (pack : Message → Option Bytes) (s : State) (a p : Packet)
    (q q' : Question) (qs qs' : List Question)
    (hra : a.message.Response = true) (hqa : a.message.Questions = q :: qs)
    (hrp : p.message.Response = false) (hqp : p.message.Questions = q' :: qs') :
    ∃ s1 e1, handle pack s a = some (s1, e1) ∧
      (q'.Name.String = q.Name.String →
        query pack s1 p = some (s1, [Effect.sendToClient
          { addr := p.addr, message := { a.message with ID := p.message.ID } }])) ∧
      (q'.Name.String ≠ q.Name.String →
        s1.store.data q'.Name.String = s.store.data q'.Name.String) ∧
      (q'.Name.String ≠ q.Name.String → s.store.data q'.Name.String = none →
        ∀ packed, pack p.message = some packed →
          ∃ s2, query pack s1 p = some (s2, [Effect.writeToUDP packed resolver]) ∧
            s2.messages q'.Name.String = s1.messages q'.Name.String ++ [p] ∧
            ∀ (a2 : Packet) (q2 : Question) (qs2 : List Question),
              a2.message.Response = true → a2.message.Questions = q2 :: qs2 →
              q2.Name.String = q'.Name.String →
              ∃ s3 e3, handle pack s2 a2 = some (s3, e3) ∧
                s3.store.data q.Name.String = some a.message ∧
                s3.store.data q'.Name.String = some a2.message) := by
  obtain ⟨s1, e1, h1, hst1⟩ := handle_answer_store pack s a q qs hqa hra
  have hkept : q'.Name.String ≠ q.Name.String →
      s1.store.data q'.Name.String = s.store.data q'.Name.String := by
    intro hne
    rw [hst1]
    exact Function.update_noteq hne _ _
  refine ⟨s1, e1, h1, ?_, hkept, ?_⟩
  · intro hname
    refine query_hit pack s1 p q' qs' a.message hqp hrp ?_
    rw [hname, hst1]
    exact Function.update_same _ _ _
  · intro hne hnone packed hp
    have hc : s1.store.data q'.Name.String = none := by rw [hkept hne, hnone]
    refine ⟨_, query_miss pack s1 p q' qs' packed hqp hrp hc hp, Function.update_same _ _ _, ?_⟩
    intro a2 q2 qs2 hra2 hqa2 hname2
    obtain ⟨s3, e3, h3, hst3⟩ := handle_answer_store pack
      { s1 with messages :=
          Function.update s1.messages q'.Name.String (s1.messages q'.Name.String ++ [p]) }
      a2 q2 qs2 hqa2 hra2
    refine ⟨s3, e3, h3, ?_, ?_⟩
    · rw [hst3, hname2]
      have hne' : q.Name.String ≠ q'.Name.String := fun h => hne h.symm
      rw [Function.update_noteq hne', hst1]
      exact Function.update_same _ _ _
    · rw [hst3, hname2]
      exact Function.update_same _ _ _

/-- Instance of amended C10: the answer for `A.com.` in the initial state, then
the question of client B for `a.com.`. -/
theorem cache_key_exact_spelling_witness :
    ∃ s1 e1, handle packIdTypes State.init { addr := resolver, message := mkAnswer 7 nameAUpper 1 300 }
        = some (s1, e1) ∧
      (nameA.String = nameAUpper.String →
        query packIdTypes s1 { addr := clientB, message := mkQuestion 9 nameA 1 }
          = some (s1, [Effect.sendToClient
            { addr := clientB, message := mkAnswer 9 nameAUpper 1 300 }])) ∧
      (nameA.String ≠ nameAUpper.String →
        s1.store.data nameA.String = State.init.store.data nameA.String) ∧
      (nameA.String ≠ nameAUpper.String → State.init.store.data nameA.String = none →
        ∀ packed, packIdTypes (mkQuestion 9 nameA 1) = some packed →
          ∃ s2, query packIdTypes s1 { addr := clientB, message := mkQuestion 9 nameA 1 }
              = some (s2, [Effect.writeToUDP packed resolver]) ∧
            s2.messages nameA.String
              = s1.messages nameA.String ++ [{ addr := clientB, message := mkQuestion 9 nameA 1 }] ∧
            ∀ (a2 : Packet) (q2 : Question) (qs2 : List Question),
              a2.message.Response = true → a2.message.Questions = q2 :: qs2 →
              q2.Name.String = nameA.String →
              ∃ s3 e3, handle packIdTypes s2 a2 = some (s3, e3) ∧
                s3.store.data nameAUpper.String = some (mkAnswer 7 nameAUpper 1 300) ∧
                s3.store.data nameA.String = some a2.message) :=
  cache_key_exact_spelling packIdTypes State.init
    { addr := resolver, message := mkAnswer 7 nameAUpper 1 300 }
    { addr := clientB, message := mkQuestion 9 nameA 1 }
    { Name := nameAUpper, Typ := 1, Class := 1 } { Name := nameA, Typ := 1, Class := 1 } [] []
    rfl rfl rfl rfl

/-! ## Messages without questions -/

theorem query_none_iff (pack : Message → Option Bytes) (s : State) (p : Packet) :
    query pack s p = none ↔ p.message.Questions = [] := by
  constructor
  · intro h
    cases hq : p.message.Questions with
    | nil => rfl
    | cons q qs =>
      obtain ⟨s', effs, h'⟩ := handle_total pack s p
      rw [handle_eq_query pack s p q qs hq, h] at h'
      cases h'
  · intro hq
    simp [query, hq]

/-- C11: for every state and every decoded message whose question section is
empty, the receive loop does not hand the message to `query`: it continues with
the state, so the cache and the pending table, unchanged and nothing issued,
although `query` on such a message would index out of range. Consequently, for
every message, the loop body never reaches the out-of-range access: `query` is
called only on messages with a first question, where it returns. -/
theorem no_question_discarded (unpack : Bytes → Option Message) (pack : Message → Option Bytes)
    (s : State) (buf : Bytes) (remoteAddr : UDPAddr) (m : Message)
    (hu : unpack buf = some m) (hq : m.Questions = []) :
    mainLoopBody unpack pack s buf remoteAddr = some (s, []) ∧
    handle pack s { addr := remoteAddr, message := m } = some (s, []) ∧
    wire pack [] = [] ∧
    query pack s { addr := remoteAddr, message := m } = none ∧
    (∀ (s0 : State) (buf0 : Bytes) (addr0 : UDPAddr),
      mainLoopBody unpack pack s0 buf0 addr0 ≠ none) ∧
    (∀ (s0 : State) (p0 : Packet), handle pack s0 p0 ≠ none) ∧
    (∀ (s0 : State) (p0 : Packet), p0.message.Questions.length ≠ 0 → query pack s0 p0 ≠ none) := by
  have hquery : ∀ (s0 : State) (p0 : Packet), p0.message.Questions.length ≠ 0 →
      query pack s0 p0 ≠ none := by
    intro s0 p0 hlen hnone
    rw [query_none_iff] at hnone
    rw [hnone] at hlen
    exact hlen rfl
  refine ⟨by simp [mainLoopBody, hu, hq], by simp [handle, hq], rfl,
    (query_none_iff pack s _).mpr hq, ?_, ?_, hquery⟩
  · intro s0 buf0 addr0
    unfold mainLoopBody
    cases hu0 : unpack buf0 with
    | none => simp
    | some m0 =>
      by_cases hlen : m0.Questions.length = 0
      · simp [hlen]
      · simp only [hlen, if_false]
        exact hquery s0 _ hlen
  · intro s0 p0 hnone
    obtain ⟨s', effs, h'⟩ := handle_total pack s0 p0
    rw [hnone] at h'
    cases h'

/-- Instance of C11: a decoded message with no question, in a state with a cache entry. -/
theorem no_question_discarded_witness :
    mainLoopBody (fun _ => some (mkNoQuestion 5)) packIdTypes stateCachedA [0, 5] clientA
      = some (stateCachedA, []) ∧
    handle packIdTypes stateCachedA { addr := clientA, message := mkNoQuestion 5 }
      = some (stateCachedA, []) ∧
    wire packIdTypes [] = [] ∧
    query packIdTypes stateCachedA { addr := clientA, message := mkNoQuestion 5 } = none ∧
    (∀ (s0 : State) (buf0 : Bytes) (addr0 : UDPAddr),
      mainLoopBody (fun _ => some (mkNoQuestion 5)) packIdTypes s0 buf0 addr0 ≠ none) ∧
    (∀ (s0 : State) (p0 : Packet), handle packIdTypes s0 p0 ≠ none) ∧
    (∀ (s0 : State) (p0 : Packet), p0.message.Questions.length ≠ 0 →
      query packIdTypes s0 p0 ≠ none) :=
  no_question_discarded (fun _ => some (mkNoQuestion 5)) packIdTypes stateCachedA [0, 5] clientA
    (mkNoQuestion 5) rfl rfl

/-! ## Colliding transaction IDs -/

/-- C12, as stated, fails. Clients A and B both wait for `a.com.` with ID 7, A
registered first; when A's record is in the list twice, two answers with that
name and ID are both relayed to A and the record of B stays unserved; when a
record of a client C with the same ID precedes them, the first answer is
relayed to C and the second to A. -/
theorem colliding_ids_counterexample :
    clientA ≠ clientB ∧
    statePendingAAB.messages nameA.String
      = [{ addr := clientA, message := mkQuestion 7 nameA 1 },
         { addr := clientA, message := mkQuestion 7 nameA 1 },
         { addr := clientB, message := mkQuestion 7 nameA 1 }] ∧
    (runTrace packIdTypes statePendingAAB traceTwoAnswers).map Prod.snd
      = some [Effect.sendToClient { addr := clientA, message := mkAnswer 7 nameA 1 300 },
          Effect.sendToClient { addr := clientA, message := mkAnswer 7 nameA 1 60 }] ∧
    (runTrace packIdTypes statePendingAAB traceTwoAnswers).map (fun r => r.1.messages nameA.String)
      = some [{ addr := clientB, message := mkQuestion 7 nameA 1 }] ∧
    statePendingCAB.messages nameA.String
      = [{ addr := clientC, message := mkQuestion 7 nameA 1 },
         { addr := clientA, message := mkQuestion 7 nameA 1 },
         { addr := clientB, message := mkQuestion 7 nameA 1 }] ∧
    (runTrace packIdTypes statePendingCAB traceTwoAnswers).map Prod.snd
      = some [Effect.sendToClient { addr := clientC, message := mkAnswer 7 nameA 1 300 },
          Effect.sendToClient { addr := clientA, message := mkAnswer 7 nameA 1 60 }] ∧
    (runTrace packIdTypes statePendingCAB traceTwoAnswers).map (fun r => r.1.messages nameA.String)
      = some [{ addr := clientB, message := mkQuestion 7 nameA 1 }] := by
  decide

/-- C12, amended: for every state in which the pending list of a name holds a
record of client A and, later in the list, a record of client B with the same
transaction ID, these being the first two records with that ID (no record
before A's and none between the two carries it), handling one upstream
answer with that name and ID relays it to A alone and keeps the record of B;
handling a second such answer relays it to B alone. Each of the two is sent
exactly one answer and each record is removed by the answer relayed to it. -/
theorem colliding_ids_served_in_order (pack : Message → Option Bytes) (s : State)
    (a1 a2 rA rB : Packet) (q1 q2 : Question) (qs1 qs2 : List Question)
    (pre mid post : List Packet)
    (hr1 : a1.message.Response = true) (hq1 : a1.message.Questions = q1 :: qs1)
    (hr2 : a2.message.Response = true) (hq2 : a2.message.Questions = q2 :: qs2)
    (hname : q2.Name.String = q1.Name.String) (hid2 : a2.message.ID = a1.message.ID)
    (hl : s.messages q1.Name.String = pre ++ rA :: (mid ++ rB :: post))
    (hA : rA.message.ID = a1.message.ID) (hB : rB.message.ID = a1.message.ID)
    (hpre : ∀ x ∈ pre, x.message.ID ≠ a1.message.ID)
    (hmid : ∀ x ∈ mid, x.message.ID ≠ a1.message.ID) :
    ∃ s1 s2,
      handle pack s a1
        = some (s1, [Effect.sendToClient { addr := rA.addr, message := a1.message }]) ∧
      s1.messages q1.Name.String = pre ++ (mid ++ rB :: post) ∧
      handle pack s1 a2
        = some (s2, [Effect.sendToClient { addr := rB.addr, message := a2.message }]) ∧
      s2.messages q1.Name.String = pre ++ (mid ++ post) := by
  have h1 := sendPacket_match s q1.Name.String a1 rA pre (mid ++ rB :: post) hl hA.symm
    (fun x hx hx' => hpre x hx hx'.symm)
  have hl1 : (sendPacket s q1.Name.String a1).1.messages q1.Name.String
      = (pre ++ mid) ++ rB :: post := by
    rw [h1]
    simp [Function.update_same]
  have hpm : ∀ x ∈ pre ++ mid, a2.message.ID ≠ x.message.ID := by
    intro x hx hx'
    rw [hid2] at hx'
    rcases List.mem_append.mp hx with h | h
    · exact hpre x h hx'.symm
    · exact hmid x h hx'.symm
  have h2 := sendPacket_match (sendPacket s q1.Name.String a1).1 q1.Name.String a2 rB
    (pre ++ mid) post hl1 (by rw [hid2, hB]) hpm
  refine ⟨(sendPacket s q1.Name.String a1).1, (sendPacket (sendPacket s q1.Name.String a1).1
    q1.Name.String a2).1, ?_, ?_, ?_, ?_⟩
  · rw [handle_eq_query pack s a1 q1 qs1 hq1, query_response pack s a1 q1 qs1 hq1 hr1, h1]
  · rw [hl1, List.append_assoc]
  · rw [handle_eq_query pack _ a2 q2 qs2 hq2, query_response pack _ a2 q2 qs2 hq2 hr2, hname, h2]
  · rw [h2]
    simp [Function.update_same]

/-- Instance of amended C12: clients A and B both wait for `a.com.` with ID 7 and two
answers with ID 7 arrive. -/
theorem colliding_ids_served_in_order_witness :
    ∃ s1 s2,
      handle packIdTypes statePendingAB { addr := resolver, message := mkAnswer 7 nameA 1 300 }
        = some (s1, [Effect.sendToClient { addr := clientA, message := mkAnswer 7 nameA 1 300 }]) ∧
      s1.messages nameA.String = [] ++ ([] ++ [{ addr := clientB, message := mkQuestion 7 nameA 1 }]) ∧
      handle packIdTypes s1 { addr := resolver, message := mkAnswer 7 nameA 1 60 }
        = some (s2, [Effect.sendToClient { addr := clientB, message := mkAnswer 7 nameA 1 60 }]) ∧
      s2.messages nameA.String = [] ++ ([] ++ []) :=
  colliding_ids_served_in_order packIdTypes statePendingAB
    { addr := resolver, message := mkAnswer 7 nameA 1 300 }
    { addr := resolver, message := mkAnswer 7 nameA 1 60 }
    { addr := clientA, message := mkQuestion 7 nameA 1 }
    { addr := clientB, message := mkQuestion 7 nameA 1 }
    { Name := nameA, Typ := 1, Class := 1 } { Name := nameA, Typ := 1, Class := 1 } [] []
    [] [] [] rfl rfl rfl rfl rfl rfl (by decide) rfl rfl
    (fun x hx => absurd hx (List.not_mem_nil x)) (fun x hx => absurd hx (List.not_mem_nil x))

/-! ## Writes to the cache -/

/-- C13: for every state and every upstream answer with a first question of
name K, matched by a pending record or not, after handling it the cache holds
exactly that answer message at K, whatever entry K held before, and the cache
entry of every other key is unchanged. -/
theorem cache_put_overwrites (pack : Message → Option Bytes) (s : State) (p : Packet)
    (q : Question) (qs : List Question)
    (hq : p.message.Questions = q :: qs) (hr : p.message.Response = true) :
    ∃ s' effs, handle pack s p = some (s', effs) ∧
      s'.store.data q.Name.String = some p.message ∧
      (∀ k, k ≠ q.Name.String → s'.store.data k = s.store.data k) := by
  obtain ⟨s', effs, h, hst⟩ := handle_answer_store pack s p q qs hq hr
  refine ⟨s', effs, h, ?_, ?_⟩
  · rw [hst]
    exact Function.update_same _ _ _
  · intro k hk
    rw [hst]
    exact Function.update_noteq hk _ _

/-- Instance of C13: a matched answer with TTL 60 for `a.com.` replaces nothing
in `statePendingA` and is then the entry for `a.com.`. -/
theorem cache_put_overwrites_witness :
    ∃ s' effs, handle packIdTypes statePendingA { addr := resolver, message := mkAnswer 7 nameA 1 60 }
        = some (s', effs) ∧
      s'.store.data nameA.String = some (mkAnswer 7 nameA 1 60) ∧
      (∀ k, k ≠ nameA.String → s'.store.data k = statePendingA.store.data k) :=
  cache_put_overwrites packIdTypes statePendingA { addr := resolver, message := mkAnswer 7 nameA 1 60 }
    { Name := nameA, Typ := 1, Class := 1 } [] rfl rfl

/-- C14: for every state and every client question (response flag false),
whether it hits or misses the cache, handling it leaves the cache unchanged. On
a hit the reply carries the question's transaction ID while the entry stays in
the cache as it was, with its own transaction ID. -/
theorem client_question_keeps_cache (pack : Message → Option Bytes) (s : State) (p : Packet)
    (hr : p.message.Response = false) :
    ∃ s' effs, handle pack s p = some (s', effs) ∧
      s'.store.data = s.store.data ∧
      (∀ q qs cached, p.message.Questions = q :: qs →
        s.store.data q.Name.String = some cached →
          effs = [Effect.sendToClient
            { addr := p.addr, message := { cached with ID := p.message.ID } }] ∧
          s'.store.data q.Name.String = some cached) := by
  obtain ⟨s', effs, h⟩ := handle_total pack s p
  have hst : s'.store.data = s.store.data := by
    funext k
    exact handle_store_kept pack s s' p effs k h (fun hr' => by rw [hr] at hr'; cases hr')
  refine ⟨s', effs, h, hst, ?_⟩
  intro q qs cached hq hc
  rw [handle_eq_query pack s p q qs hq, query_hit pack s p q qs cached hq hr hc] at h
  simp only [Option.some.injEq, Prod.mk.injEq] at h
  refine ⟨h.2.symm, ?_⟩
  rw [hst, hc]

/-- Instance of C14: the question with ID 9 for the cached `a.com.`, whose entry keeps ID 7. -/
theorem client_question_keeps_cache_witness :
    ∃ s' effs, handle packIdTypes stateCachedA { addr := clientB, message := mkQuestion 9 nameA 1 }
        = some (s', effs) ∧
      s'.store.data = stateCachedA.store.data ∧
      (∀ q qs cached, (mkQuestion 9 nameA 1).Questions = q :: qs →
        stateCachedA.store.data q.Name.String = some cached →
          effs = [Effect.sendToClient
            { addr := clientB, message := { cached with ID := 9 } }] ∧
          s'.store.data q.Name.String = some cached) :=
  client_question_keeps_cache packIdTypes stateCachedA
    { addr := clientB, message := mkQuestion 9 nameA 1 } rfl

/-! ## The caching scenario end to end -/

theorem handle_store_present (pack : Message → Option Bytes) (s s' : State) (p : Packet)
    (effs : List Effect) (k : GoString) (m : Message) (h : handle pack s p = some (s', effs))
    (hk : s.store.data k = some m) : ∃ m', s'.store.data k = some m' := by
  by_cases hcond : p.message.Response = true ∧ domainOf p.message = some k
  · obtain ⟨hr, hd⟩ := hcond
    cases hq : p.message.Questions with
    | nil => simp [domainOf, hq] at hd
    | cons q qs =>
      simp only [domainOf, hq, Option.some.injEq] at hd
      obtain ⟨s1, e1, h1, hst1⟩ := handle_answer_store pack s p q qs hq hr
      rw [h] at h1
      simp only [Option.some.injEq, Prod.mk.injEq] at h1
      refine ⟨p.message, ?_⟩
      rw [h1.1, hst1, ← hd]
      exact Function.update_same _ _ _
  · refine ⟨m, ?_⟩
    rw [handle_store_kept pack s s' p effs k h (fun hr hd => hcond ⟨hr, hd⟩), hk]

theorem runTrace_store_present (pack : Message → Option Bytes) (k : GoString) (tr : List Arrival) :
    ∀ (s : State) (m : Message), s.store.data k = some m →
      ∃ s' effs m', runTrace pack s tr = some (s', effs) ∧ s'.store.data k = some m' := by
  induction tr with
  | nil => intro s m hk; exact ⟨s, [], m, rfl, hk⟩
  | cons a rest ih =>
    intro s m hk
    obtain ⟨s1, e1, h1⟩ := handle_total pack s a.packet
    obtain ⟨m1, hk1⟩ := handle_store_present pack s s1 a.packet e1 k m h1 hk
    obtain ⟨s2, e2, m2, h2, hk2⟩ := ih s1 m1 hk1
    refine ⟨s2, e1 ++ e2, m2, ?_, hk2⟩
    simp only [runTrace, handleAt, h1, h2]

/-- C15: starting from the empty cache and the empty pending table, after a
client question (ID i, name D) from client A and then an upstream answer with
ID i and name D have been handled, followed by any further arrivals, a client
question for D from any client B with any transaction ID j is answered from
the cache: the one effect is the cached message with ID j handed to
`sendToClient` for B, the state is unchanged and nothing is written toward the
upstream resolver. The cached message is that answer unless a later answer for
D has replaced it. When the first question can be encoded, the trace begins
with its forwarding and the relay of the answer to A. -/
theorem end_to_end_cached (pack : Message → Option Bytes) (A B up : UDPAddr)
    (qm am bm : Message) (mid : List Arrival) (t0 t1 t : Nat)
    (q qa qb : Question) (qs qsa qsb : List Question)
    (hqr : qm.Response = false) (hqq : qm.Questions = q :: qs)
    (har : am.Response = true) (haq : am.Questions = qa :: qsa)
    (hna : qa.Name.String = q.Name.String) (hid : am.ID = qm.ID)
    (hbr : bm.Response = false) (hbq : bm.Questions = qb :: qsb)
    (hnb : qb.Name.String = q.Name.String) :
    ∃ s2 e2 cached,
      runTrace pack State.init
        ({ time := t0, packet := { addr := A, message := qm } } ::
          { time := t1, packet := { addr := up, message := am } } :: mid) = some (s2, e2) ∧
      handleAt pack s2 t { addr := B, message := bm }
        = some (s2, [Effect.sendToClient { addr := B, message := { cached with ID := bm.ID } }]) ∧
      (∀ packed addr, Effect.writeToUDP packed addr ∉
        [Effect.sendToClient { addr := B, message := { cached with ID := bm.ID } }]) ∧
      ((∀ x ∈ mid, x.packet.message.Response = true →
          domainOf x.packet.message ≠ some q.Name.String) → cached = am) ∧
      (∀ packed, pack qm = some packed →
        ∃ rest, e2 = Effect.writeToUDP packed resolver ::
          Effect.sendToClient { addr := A, message := am } :: rest) := by
  obtain ⟨s0, e0, h0⟩ := handle_total pack State.init { addr := A, message := qm }
  obtain ⟨s1, e1, h1, hst1⟩ := handle_answer_store pack s0 { addr := up, message := am } qa qsa haq har
  have hk1 : s1.store.data q.Name.String = some am := by
    rw [hst1, hna]
    exact Function.update_same _ _ _
  obtain ⟨s2, e2, cached, h2, hk2⟩ := runTrace_store_present pack q.Name.String mid s1 am hk1
  have hrun : runTrace pack State.init
      ({ time := t0, packet := { addr := A, message := qm } } ::
        { time := t1, packet := { addr := up, message := am } } :: mid)
      = some (s2, e0 ++ (e1 ++ e2)) := by
    simp only [runTrace, handleAt, h0, h1, h2]
  refine ⟨s2, e0 ++ (e1 ++ e2), cached, hrun, ?_, ?_, ?_, ?_⟩
  · rw [handleAt, handle_eq_query pack s2 _ qb qsb hbq]
    exact query_hit pack s2 _ qb qsb cached hbq hbr (by rw [hnb]; exact hk2)
  · intro packed addr hmem
    simp at hmem
  · intro hmid
    obtain ⟨s2', e2', h2', hkept⟩ := runTrace_store_kept pack q.Name.String mid s1 hmid
    rw [h2] at h2'
    simp only [Option.some.injEq, Prod.mk.injEq] at h2'
    rw [← h2'.1, hk2, hk1] at hkept
    exact Option.some.inj hkept
  · intro packed hp
    have hmiss := query_miss pack State.init { addr := A, message := qm } q qs packed hqq hqr rfl hp
    rw [handle_eq_query pack State.init _ q qs hqq, hmiss] at h0
    simp only [Option.some.injEq, Prod.mk.injEq] at h0
    obtain ⟨hs0, he0⟩ := h0
    have hl : s0.messages qa.Name.String = [] ++ { addr := A, message := qm } :: [] := by
      rw [← hs0, hna]
      simp [Function.update_same, State.init]
    have hmatch := sendPacket_match s0 qa.Name.String { addr := up, message := am }
      { addr := A, message := qm } [] [] hl hid (fun x hx => absurd hx (List.not_mem_nil x))
    rw [handle_eq_query pack s0 _ qa qsa haq, query_response pack s0 _ qa qsa haq har, hmatch] at h1
    simp only [Option.some.injEq, Prod.mk.injEq] at h1
    refine ⟨e2, ?_⟩
    rw [← he0, ← h1.2]
    rfl

/-- Instance of C15: client A resolves `a.com.` with ID 7, then client B asks with ID 9. -/
theorem end_to_end_cached_witness :
    ∃ s2 e2 cached,
      runTrace packIdTypes State.init
        ({ time := 0, packet := { addr := clientA, message := mkQuestion 7 nameA 1 } } ::
          { time := 1, packet := { addr := resolver, message := mkAnswer 7 nameA 1 300 } } :: [])
        = some (s2, e2) ∧
      handleAt packIdTypes s2 100 { addr := clientB, message := mkQuestion 9 nameA 1 }
        = some (s2, [Effect.sendToClient
            { addr := clientB, message := { cached with ID := (mkQuestion 9 nameA 1).ID } }]) ∧
      (∀ packed addr, Effect.writeToUDP packed addr ∉
        [Effect.sendToClient
          { addr := clientB, message := { cached with ID := (mkQuestion 9 nameA 1).ID } }]) ∧
      ((∀ x ∈ ([] : List Arrival), x.packet.message.Response = true →
          domainOf x.packet.message ≠ some nameA.String) → cached = mkAnswer 7 nameA 1 300) ∧
      (∀ packed, packIdTypes (mkQuestion 7 nameA 1) = some packed →
        ∃ rest, e2 = Effect.writeToUDP packed resolver ::
          Effect.sendToClient { addr := clientA, message := mkAnswer 7 nameA 1 300 } :: rest) :=
  end_to_end_cached packIdTypes clientA clientB resolver
    (mkQuestion 7 nameA 1) (mkAnswer 7 nameA 1 300) (mkQuestion 9 nameA 1) [] 0 1 100
    { Name := nameA, Typ := 1, Class := 1 } { Name := nameA, Typ := 1, Class := 1 }
    { Name := nameA, Typ := 1, Class := 1 } [] [] [] rfl rfl rfl rfl rfl rfl rfl rfl rfl

/-! ## The pending table: leaks and removal -/

theorem sendPacket_cases (s : State) (domain : GoString) (p : Packet) :
    ((∀ x ∈ s.messages domain, p.message.ID ≠ x.message.ID) ∧
      sendPacket s domain p
        = ({ store := { data := Function.update s.store.data domain (some p.message) },
             messages := s.messages }, [])) ∨
    (∃ pre r post, s.messages domain = pre ++ r :: post ∧ p.message.ID = r.message.ID ∧
      (∀ x ∈ pre, p.message.ID ≠ x.message.ID) ∧
      sendPacket s domain p
        = ({ store := { data := Function.update s.store.data domain (some p.message) },
             messages := Function.update s.messages domain (pre ++ post) },
           [Effect.sendToClient { addr := r.addr, message := p.message }])) := by
  by_cases hm : ∃ r ∈ s.messages domain, p.message.ID = r.message.ID
  · right
    obtain ⟨pre, r, post, hl, hid, hpre⟩ := exists_first_record _ _ hm
    exact ⟨pre, r, post, hl, hid, hpre, sendPacket_match s domain p r pre post hl hid hpre⟩
  · left
    have hno : ∀ x ∈ s.messages domain, p.message.ID ≠ x.message.ID :=
      fun x hx hx' => hm ⟨x, hx, hx'⟩
    exact ⟨hno, sendPacket_nomatch s domain p hno⟩

theorem handle_record_kept (pack : Message → Option Bytes) (s s' : State) (p r : Packet)
    (effs : List Effect) (D : GoString) (h : handle pack s p = some (s', effs))
    (hr : r ∈ s.messages D)
    (hp : ¬ (p.message.Response = true ∧ domainOf p.message = some D ∧
      p.message.ID = r.message.ID)) :
    r ∈ s'.messages D := by
  cases hq : p.message.Questions with
  | nil =>
    simp [handle, hq] at h
    rw [← h.1]
    exact hr
  | cons q qs =>
    rw [handle_eq_query pack s p q qs hq] at h
    cases hresp : p.message.Response with
    | true =>
      rw [query_response pack s p q qs hq hresp] at h
      simp only [Option.some.injEq] at h
      rcases sendPacket_cases s q.Name.String p with ⟨-, hsp⟩ | ⟨pre, x, post, hl, hid, -, hsp⟩
      · rw [hsp] at h
        simp only [Prod.mk.injEq] at h
        rw [← h.1]
        exact hr
      · rw [hsp] at h
        simp only [Prod.mk.injEq] at h
        rw [← h.1]
        by_cases hD : D = q.Name.String
        · subst hD
          simp only [Function.update_same]
          rw [hl] at hr
          have hne : r ≠ x := by
            intro hrx
            exact hp ⟨hresp, by simp [domainOf, hq], by rw [hid, hrx]⟩
          rcases List.mem_append.mp hr with hin | hin
          · exact List.mem_append_left _ hin
          · rcases List.mem_cons.mp hin with hin | hin
            · exact absurd hin hne
            · exact List.mem_append_right _ hin
        · simp only [Function.update_noteq hD]
          exact hr
    | false =>
      cases hs : s.store.data q.Name.String with
      | some cached =>
        rw [query_hit pack s p q qs cached hq hresp hs] at h
        simp only [Option.some.injEq, Prod.mk.injEq] at h
        rw [← h.1]
        exact hr
      | none =>
        cases hpk : pack p.message with
        | none =>
          simp [query, hq, hresp, hs, hpk] at h
          rw [← h.1]
          exact hr
        | some packed =>
          rw [query_miss pack s p q qs packed hq hresp hs hpk] at h
          simp only [Option.some.injEq, Prod.mk.injEq] at h
          rw [← h.1]
          by_cases hD : D = q.Name.String
          · subst hD
            simp only [Function.update_same]
            exact List.mem_append_left _ hr
          · simp only [Function.update_noteq hD]
            exact hr

/-- C17: for every state whose pending list for a name D contains a record r
and every finite trace of handled datagrams, arriving at any times, that
contains no message with the response flag set whose first question name is D
and whose transaction ID is that of r, the trace is handled to its end and r is
still in the pending list of D afterwards: no passage of time and no other
datagram removes it. -/
theorem pending_record_leaks (pack : Message → Option Bytes) (r : Packet) (D : GoString)
    (tr : List Arrival) :
    ∀ (s : State), r ∈ s.messages D →
      (∀ x ∈ tr, ¬ (x.packet.message.Response = true ∧ domainOf x.packet.message = some D ∧
        x.packet.message.ID = r.message.ID)) →
      ∃ s' effs, runTrace pack s tr = some (s', effs) ∧ r ∈ s'.messages D := by
  induction tr with
  | nil => intro s hr _; exact ⟨s, [], rfl, hr⟩
  | cons a rest ih =>
    intro s hr htr
    obtain ⟨s1, e1, h1⟩ := handle_total pack s a.packet
    have hr1 := handle_record_kept pack s s1 a.packet r e1 D h1 hr (htr a (List.mem_cons_self a rest))
    obtain ⟨s2, e2, h2, hr2⟩ := ih s1 hr1 (fun x hx => htr x (List.mem_cons_of_mem a hx))
    refine ⟨s2, e1 ++ e2, ?_, hr2⟩
    simp only [runTrace, handleAt, h1, h2]

/-- Instance of C17: client A waits for `a.com.` with ID 7; an answer with ID 8
for `a.com.`, an answer with ID 7 for `b.com.` and a question of client B
arrive over a long time. -/
theorem pending_record_leaks_witness :
    ∃ s' effs, runTrace packIdTypes statePendingA
        [{ time := 10, packet := { addr := resolver, message := mkAnswer 8 nameA 1 300 } },
         { time := 5000, packet := { addr := resolver, message := mkAnswer 7 nameB 1 300 } },
         { time := 900000, packet := { addr := clientB, message := mkQuestion 7 nameB 1 } }]
        = some (s', effs) ∧
      { addr := clientA, message := mkQuestion 7 nameA 1 } ∈ s'.messages nameA.String :=
  pending_record_leaks packIdTypes { addr := clientA, message := mkQuestion 7 nameA 1 } nameA.String
    [{ time := 10, packet := { addr := resolver, message := mkAnswer 8 nameA 1 300 } },
     { time := 5000, packet := { addr := resolver, message := mkAnswer 7 nameB 1 300 } },
     { time := 900000, packet := { addr := clientB, message := mkQuestion 7 nameB 1 } }]
    statePendingA (by decide) (by decide)

theorem removeRecord_eq_eraseIdx (l : List Packet) (k : Nat) :
    removeRecord l k = l.eraseIdx k := by
  unfold removeRecord
  by_cases h : l.length - 1 = k
  · rw [if_pos h, List.eraseIdx_eq_take_drop_succ]
    have hdrop : l.drop (k + 1) = [] := List.drop_eq_nil_of_le (by omega)
    rw [hdrop, List.append_nil, h]
  · rw [if_neg h, List.eraseIdx_eq_take_drop_succ]

theorem deleteFirstWithID_split (id : Nat) (r : Packet) (post : List Packet)
    (hr : id = r.message.ID) (pre : List Packet) :
    (∀ x ∈ pre, id ≠ x.message.ID) →
      deleteFirstWithID id (pre ++ r :: post) = pre ++ post := by
  induction pre with
  | nil => intro _; simp [deleteFirstWithID, hr]
  | cons a t ih =>
    intro h
    have ha : id ≠ a.message.ID := h a (List.mem_cons_self a t)
    have ht := ih (fun x hx => h x (List.mem_cons_of_mem a hx))
    rw [List.cons_append]
    simp only [deleteFirstWithID, if_neg ha]
    exact congrArg (List.cons a) ht

theorem findIdx_first_record (id : Nat) (r : Packet) (post : List Packet)
    (hr : id = r.message.ID) (pre : List Packet) :
    (∀ x ∈ pre, id ≠ x.message.ID) →
      (pre ++ r :: post).findIdx (fun x => decide (id = x.message.ID)) = pre.length := by
  induction pre with
  | nil => intro _; simp [List.findIdx_cons, hr]
  | cons a t ih =>
    intro h
    have ha : id ≠ a.message.ID := h a (List.mem_cons_self a t)
    have ht := ih (fun x hx => h x (List.mem_cons_of_mem a hx))
    rw [List.cons_append, List.findIdx_cons]
    simp only [ha, decide_False, cond_false, List.length_cons]
    exact congrArg (· + 1) ht

/-- C18: for every state, every name and every answer whose ID occurs in the
pending list L of that name, `sendPacket` replaces L by L with its first record
of that ID deleted, all other records kept in their order: the new list is the
deletion at the index of the first match, one shorter than L even when several
records share the ID. Both deletion branches are deletion at the index: the
branch for the last index, `L[:len-1]`, and the branch `append(L[:k], L[k+1:]...)`. -/
theorem removal_is_exact (s : State) (domain : GoString) (p : Packet)
    (hm : ∃ r ∈ s.messages domain, r.message.ID = p.message.ID) :
    (sendPacket s domain p).1.messages domain
      = deleteFirstWithID p.message.ID (s.messages domain) ∧
    (sendPacket s domain p).1.messages domain
      = (s.messages domain).eraseIdx
          ((s.messages domain).findIdx (fun x => decide (p.message.ID = x.message.ID))) ∧
    ((sendPacket s domain p).1.messages domain).length + 1 = (s.messages domain).length ∧
    (∀ (l : List Packet) (k : Nat), k < l.length → removeRecord l k = l.eraseIdx k) ∧
    (∀ (l : List Packet) (k : Nat), l.length - 1 = k → k < l.length →
      removeRecord l k = l.take (l.length - 1) ∧ l.take (l.length - 1) = l.eraseIdx k) ∧
    (∀ (l : List Packet) (k : Nat), l.length - 1 ≠ k →
      removeRecord l k = l.take k ++ l.drop (k + 1) ∧ l.take k ++ l.drop (k + 1) = l.eraseIdx k) := by
  obtain ⟨r0, hr0, hid0⟩ := hm
  obtain ⟨pre, r, post, hl, hid, hpre⟩ :=
    exists_first_record p.message.ID (s.messages domain) ⟨r0, hr0, hid0.symm⟩
  have hsp := sendPacket_match s domain p r pre post hl hid hpre
  have hnew : (sendPacket s domain p).1.messages domain = pre ++ post := by
    rw [hsp]
    exact Function.update_same _ _ _
  refine ⟨?_, ?_, ?_, fun l k _ => removeRecord_eq_eraseIdx l k, ?_, ?_⟩
  · rw [hnew, hl, deleteFirstWithID_split _ r post hid pre hpre]
  · rw [hnew, hl, findIdx_first_record _ r post hid pre hpre,
      List.eraseIdx_append_of_length_le (Nat.le_refl _)]
    simp
  · rw [hnew, hl]
    simp only [List.length_append, List.length_cons]
    omega
  · intro l k hlast _
    have h1 : removeRecord l k = l.take (l.length - 1) := by
      unfold removeRecord
      rw [if_pos hlast]
    exact ⟨h1, by rw [← h1, removeRecord_eq_eraseIdx l k]⟩
  · intro l k hne
    refine ⟨?_, (List.eraseIdx_eq_take_drop_succ l k).symm⟩
    unfold removeRecord
    rw [if_neg hne]

/-- Instance of C18: clients A and B wait for `a.com.` with the same ID 7; the
answer with ID 7 removes the record of A only. -/
theorem removal_is_exact_witness :
    (sendPacket statePendingAB nameA.String
        { addr := resolver, message := mkAnswer 7 nameA 1 300 }).1.messages nameA.String
      = [{ addr := clientB, message := mkQuestion 7 nameA 1 }] := by
  have h := removal_is_exact statePendingAB nameA.String
    { addr := resolver, message := mkAnswer 7 nameA 1 300 }
    ⟨{ addr := clientA, message := mkQuestion 7 nameA 1 }, by decide, rfl⟩
  rw [h.1]
  decide

/-! ## Encoding failure and locality -/

/-- C19: for every state and every client question that misses the cache and
whose encoding fails, `query` returns with the state, so the pending table and
the cache, unchanged and with nothing issued, so no datagram is written: `Pack`
is called, and its error returned on, before the pending record is appended. -/
theorem pack_failure_atomic (pack : Message → Option Bytes) (s : State) (p : Packet)
    (q : Question) (qs : List Question)
    (hq : p.message.Questions = q :: qs) (hr : p.message.Response = false)
    (hc : s.store.data q.Name.String = none) (hp : pack p.message = none) :
    query pack s p = some (s, []) ∧ handle pack s p = some (s, []) ∧ wire pack [] = [] := by
  have hquery : query pack s p = some (s, []) := by simp [query, hq, hr, hc, hp]
  exact ⟨hquery, by rw [handle_eq_query pack s p q qs hq, hquery], rfl⟩

/-- Instance of C19: a question for `a.com.` in `statePendingA` with an encoder that fails. -/
theorem pack_failure_atomic_witness :
    query packFail statePendingA { addr := clientB, message := mkQuestion 9 nameA 1 }
      = some (statePendingA, []) ∧
    handle packFail statePendingA { addr := clientB, message := mkQuestion 9 nameA 1 }
      = some (statePendingA, []) ∧
    wire packFail [] = [] :=
  pack_failure_atomic packFail statePendingA { addr := clientB, message := mkQuestion 9 nameA 1 }
    { Name := nameA, Typ := 1, Class := 1 } [] rfl rfl rfl rfl

theorem handling_local_to_name (pack : Message → Option Bytes) (s : State) (p : Packet)
    (q : Question) (qs : List Question) (hq : p.message.Questions = q :: qs) :
    ∃ s' effs, handle pack s p = some (s', effs) ∧
      (∀ d, d ≠ q.Name.String →
        s'.messages d = s.messages d ∧ s'.store.data d = s.store.data d) ∧
      ((s'.messages q.Name.String).length ≤ (s.messages q.Name.String).length + 1 ∧
        (s.messages q.Name.String).length ≤ (s'.messages q.Name.String).length + 1) ∧
      (p.message.Response = false → s.store.data q.Name.String = none →
        (∃ packed, pack p.message = some packed) →
        (s'.messages q.Name.String).length = (s.messages q.Name.String).length + 1) ∧
      (p.message.Response = true →
        (∃ r ∈ s.messages q.Name.String, r.message.ID = p.message.ID) →
        (s'.messages q.Name.String).length + 1 = (s.messages q.Name.String).length) ∧
      (¬ (p.message.Response = false ∧ s.store.data q.Name.String = none ∧
            ∃ packed, pack p.message = some packed) →
        ¬ (p.message.Response = true ∧
            ∃ r ∈ s.messages q.Name.String, r.message.ID = p.message.ID) →
        s'.messages q.Name.String = s.messages q.Name.String) := by
  rw [handle_eq_query pack s p q qs hq]
  cases hresp : p.message.Response with
  | true =>
    rw [query_response pack s p q qs hq hresp]
    rcases sendPacket_cases s q.Name.String p with ⟨hno, hsp⟩ | ⟨pre, x, post, hl, hid, -, hsp⟩
    · rw [hsp]
      refine ⟨_, _, rfl, fun d hd => ⟨rfl, Function.update_noteq hd _ _⟩,
        ⟨Nat.le_succ _, Nat.le_succ _⟩, (fun h => by cases h), ?_, fun _ _ => rfl⟩
      rintro - ⟨r, hr, hrid⟩
      exact absurd hrid.symm (hno r hr)
    · rw [hsp]
      have hlen : (pre ++ post).length + 1 = (s.messages q.Name.String).length := by
        rw [hl]
        simp only [List.length_append, List.length_cons]
        omega
      refine ⟨_, _, rfl,
        fun d hd => ⟨Function.update_noteq hd _ _, Function.update_noteq hd _ _⟩,
        ?_, (fun h => by cases h), ?_, ?_⟩
      · simp only [Function.update_same]
        omega
      · intro _ _
        simp only [Function.update_same]
        exact hlen
      · intro _ hnot
        exact absurd ⟨rfl, x, by rw [hl]; simp, hid.symm⟩ hnot
  | false =>
    cases hs : s.store.data q.Name.String with
    | some cached =>
      rw [query_hit pack s p q qs cached hq hresp hs]
      exact ⟨_, _, rfl, fun d _ => ⟨rfl, rfl⟩, ⟨Nat.le_succ _, Nat.le_succ _⟩,
        (fun _ h => by cases h), (fun h => by cases h), fun _ _ => rfl⟩
    | none =>
      cases hpk : pack p.message with
      | none =>
        have hquery : query pack s p = some (s, []) := by simp [query, hq, hresp, hs, hpk]
        rw [hquery]
        refine ⟨_, _, rfl, fun d _ => ⟨rfl, rfl⟩, ⟨Nat.le_succ _, Nat.le_succ _⟩,
          ?_, (fun h => by cases h), fun _ _ => rfl⟩
        rintro - - ⟨packed, hpacked⟩
        cases hpacked
      | some packed =>
        rw [query_miss pack s p q qs packed hq hresp hs hpk]
        refine ⟨_, _, rfl, fun d hd => ⟨Function.update_noteq hd _ _, rfl⟩, ?_, ?_,
          (fun h => by cases h), ?_⟩
        · simp only [Function.update_same, List.length_append, List.length_singleton]
          omega
        · intro _ _ _
          simp only [Function.update_same, List.length_append, List.length_singleton]
        · intro hnot _
          exact absurd ⟨rfl, rfl, packed, rfl⟩ hnot

theorem mainLoopBody_eq_handle (unpack : Bytes → Option Message) (pack : Message → Option Bytes)
    (s : State) (buf : Bytes) (remoteAddr : UDPAddr) (m : Message) (hu : unpack buf = some m) :
    mainLoopBody unpack pack s buf remoteAddr
      = handle pack s { addr := remoteAddr, message := m } := by
  simp [mainLoopBody, handle, hu]

/-- C20: for every state and every datagram handled by the receive loop whose
first question name is D, the pending lists and the cache entries of every
name other than D are unchanged, and the length of the pending list of D
changes by at most one: plus one on a cache miss, minus one on a matched
answer, and otherwise the list is unchanged. The library is assumed to encode
every message it has decoded: `Pack` succeeds on what `Unpack` yields. -/
theorem handling_local_to_domain (unpack : Bytes → Option Message)
    (pack : Message → Option Bytes)
    (hcodec : ∀ buf m, unpack buf = some m → ∃ packed, pack m = some packed)
    (s : State) (buf : Bytes) (remoteAddr : UDPAddr) (m : Message)
    (q : Question) (qs : List Question)
    (hu : unpack buf = some m) (hq : m.Questions = q :: qs) :
    ∃ s' effs, mainLoopBody unpack pack s buf remoteAddr = some (s', effs) ∧
      (∀ d, d ≠ q.Name.String →
        s'.messages d = s.messages d ∧ s'.store.data d = s.store.data d) ∧
      ((s'.messages q.Name.String).length ≤ (s.messages q.Name.String).length + 1 ∧
        (s.messages q.Name.String).length ≤ (s'.messages q.Name.String).length + 1) ∧
      (m.Response = false → s.store.data q.Name.String = none →
        (s'.messages q.Name.String).length = (s.messages q.Name.String).length + 1) ∧
      (m.Response = true →
        (∃ r ∈ s.messages q.Name.String, r.message.ID = m.ID) →
        (s'.messages q.Name.String).length + 1 = (s.messages q.Name.String).length) ∧
      (¬ (m.Response = false ∧ s.store.data q.Name.String = none) →
        ¬ (m.Response = true ∧ ∃ r ∈ s.messages q.Name.String, r.message.ID = m.ID) →
        s'.messages q.Name.String = s.messages q.Name.String) := by
  have hp := hcodec buf m hu
  obtain ⟨s', effs, h, hother, hbound, hmiss, hmatch, hzero⟩ :=
    handling_local_to_name pack s { addr := remoteAddr, message := m } q qs hq
  rw [← mainLoopBody_eq_handle unpack pack s buf remoteAddr m hu] at h
  refine ⟨s', effs, h, hother, hbound, fun hr hc => hmiss hr hc hp, hmatch, ?_⟩
  intro hnm hna
  exact hzero (fun hcond => hnm ⟨hcond.1, hcond.2.1⟩) hna

/-- Instance of C20: the question (ID 7, `a.com.`) of client A read in the
initial state, a cache miss. -/
theorem handling_local_to_domain_witness :
    ∃ s' effs, mainLoopBody unpackQuestionA packIdTypes State.init [0, 7] clientA = some (s', effs) ∧
      (∀ d, d ≠ nameA.String →
        s'.messages d = State.init.messages d ∧ s'.store.data d = State.init.store.data d) ∧
      ((s'.messages nameA.String).length ≤ (State.init.messages nameA.String).length + 1 ∧
        (State.init.messages nameA.String).length ≤ (s'.messages nameA.String).length + 1) ∧
      ((mkQuestion 7 nameA 1).Response = false → State.init.store.data nameA.String = none →
        (s'.messages nameA.String).length = (State.init.messages nameA.String).length + 1) ∧
      ((mkQuestion 7 nameA 1).Response = true →
        (∃ r ∈ State.init.messages nameA.String, r.message.ID = 7) →
        (s'.messages nameA.String).length + 1 = (State.init.messages nameA.String).length) ∧
      (¬ ((mkQuestion 7 nameA 1).Response = false ∧ State.init.store.data nameA.String = none) →
        ¬ ((mkQuestion 7 nameA 1).Response = true ∧
            ∃ r ∈ State.init.messages nameA.String, r.message.ID = 7) →
        s'.messages nameA.String = State.init.messages nameA.String) :=
  handling_local_to_domain unpackQuestionA packIdTypes (fun _ _ _ => ⟨_, rfl⟩) State.init [0, 7]
    clientA (mkQuestion 7 nameA 1) { Name := nameA, Typ := 1, Class := 1 } [] rfl rfl

/-! ## Locking discipline -/

theorem storeGuarded_queryOps (pack : Message → Option Bytes) (s : State) (p : Packet) :
    storeGuarded false (queryOps pack s p) = p.message.Questions.isEmpty := by
  cases hq : p.message.Questions with
  | nil => simp [queryOps, hq, storeGuarded]
  | cons q qs =>
    cases hr : p.message.Response with
    | true => simp [queryOps, hq, hr, sendPacketOps, storeGuarded]
    | false => simp [queryOps, hq, hr, storeGuarded]

/-- C16 fails on the code: both the handler of a client question for the cached
`a.com.` and the handler of an upstream answer for `a.com.` access `store.data`
without holding the mutex of `store`, which no handler ever takes, while every
access to `messages` is made under `rw`. -/
theorem store_access_not_guarded :
    queryOps packIdTypes stateCachedA { addr := clientB, message := mkQuestion 9 nameA 1 }
      = [Op.storeRead] ∧
    queryOps packIdTypes stateCachedA { addr := resolver, message := mkAnswer 7 nameA 1 300 }
      = [Op.storeWrite, Op.rwLock, Op.messagesRead, Op.rwUnlock] ∧
    storeGuarded false
      (queryOps packIdTypes stateCachedA { addr := clientB, message := mkQuestion 9 nameA 1 })
      = false ∧
    storeGuarded false
      (queryOps packIdTypes stateCachedA { addr := resolver, message := mkAnswer 7 nameA 1 300 })
      = false ∧
    messagesGuarded false
      (queryOps packIdTypes statePendingA { addr := resolver, message := mkAnswer 7 nameA 1 300 })
      = true ∧
    messagesGuarded false
      (queryOps packIdTypes State.init { addr := clientA, message := mkQuestion 7 nameA 1 })
      = true := by
  decide

end GoDns
